import Mathlib

/-!
Shallow embedding of the storage-backed container engine of
`near-sdk-rs` (`src/near-sdk/src/collections/map/unordered_map.rs`) over an
explicit byte-oriented key-value store.

Conventions of the embedding:
* byte strings are `List Nat`;
* the external `KeyStore` is an association list from byte keys to byte
  values, threaded explicitly through every operation;
* `env::panic` (a fatal abort of the invocation) is modelled by `Option`:
  a result of `none` is an abort, `some` is normal completion.  The Rust
  `Option` that an operation returns on success is the inner `Option`.
-/

namespace NearSdk

/-- A byte string (the Rust `Vec<u8>` / `&[u8]`). -/
abbrev Bytes := List Nat

/-- Modelled from the spec: the external KeyStore collaborator (§2), a
byte-key → byte-value store with atomic per-key read/write/remove.  We model
it as an association list; only its read semantics matter to the library. -/
abbrev Store := List (Bytes × Bytes)

/-- `read(key) -> Optional<bytes>` of the KeyStore (`env::storage_read`). -/
def storage_read : Store → Bytes → Option Bytes
  | [], _ => none
  | (k', v) :: rest, k => if k' = k then some v else storage_read rest k

/-- `remove(key)` of the KeyStore (`env::storage_remove`). -/
def storage_remove : Store → Bytes → Store
  | [], _ => []
  | (k', v) :: rest, k =>
    if k' = k then storage_remove rest k else (k', v) :: storage_remove rest k

/-- `write(key, bytes)` of the KeyStore (`env::storage_write`). -/
def storage_write (s : Store) (k v : Bytes) : Store :=
  (k, v) :: storage_remove s k

/-- Little-endian byte encoding of `n` on `c` bytes (`u64::to_le_bytes`
restricted to the low `c` bytes). -/
def to_le_bytes : Nat → Nat → Bytes
  | 0, _ => []
  | c + 1, n => (n % 256) :: to_le_bytes c (n / 256)

/-- The 8-byte little-endian encoding of a `u64` (`u64::to_le_bytes`). -/
def u64_to_le_bytes (n : Nat) : Bytes := to_le_bytes 8 n

/-- Little-endian decoding of a byte string (`u64::from_le_bytes`). -/
def from_le_bytes : Bytes → Nat
  | [] => 0
  | b :: rest => b + 256 * from_le_bytes rest

/-- Modelled from the spec: `Vector<T>` (§3, §4.1), the ordered persistent
sequence: a namespace byte string plus an in-memory logical length; occupied
position `i` lives at store key `namespace ++ encode_u64_le(i)`.  The Rust
source of `collections/vector.rs` is not part of the given sources; the
definition follows §4.1 of the spec. -/
structure Vector where
  pfx : Bytes
  len : Nat
deriving DecidableEq

namespace Vector

/-- Store key of position `i` (§3: `namespace ++ encode_u64_le(i)`). -/
def index_to_lookup (v : Vector) (i : Nat) : Bytes :=
  v.pfx ++ u64_to_le_bytes i

/-- Modelled from the spec: bind to a namespace, no store access (§3). -/
def new (id : Bytes) : Vector := ⟨id, 0⟩

/-- Modelled from the spec: `get_raw(i)` reads the store key for position
`i`; returns none if `i >= length` (§4.1). -/
def get_raw (v : Vector) (s : Store) (i : Nat) : Option Bytes :=
  if i < v.len then storage_read s (v.index_to_lookup i) else none

/-- Modelled from the spec: `push_raw(bytes)` writes a new occupied position
at the current length and increments the length (§4.1). -/
def push_raw (v : Vector) (s : Store) (b : Bytes) : Vector × Store :=
  (⟨v.pfx, v.len + 1⟩, storage_write s (v.index_to_lookup v.len) b)

/-- Modelled from the spec: `replace_raw(i, bytes)` requires `i < length`,
overwrites position `i` and returns the previous value; out of range or a
missing slot is a fatal fault (§4.1), modelled as `none`. -/
def replace_raw (v : Vector) (s : Store) (i : Nat) (b : Bytes) :
    Option (Bytes × Store) :=
  if i < v.len then
    match storage_read s (v.index_to_lookup i) with
    | some old => some (old, storage_write s (v.index_to_lookup i) b)
    | none => none
  else none

/-- Modelled from the spec: `swap_remove_raw(i)` requires `i < length`; if
`i` is the last occupied position it removes it, otherwise it reads the last
position, writes that value into position `i`, removes the last position; in
both cases the length decrements and the value previously at `i` is returned
(§4.1).  A missing slot is a fatal fault, modelled as `none`. -/
def swap_remove_raw (v : Vector) (s : Store) (i : Nat) :
    Option (Bytes × Vector × Store) :=
  if i < v.len then
    if i = v.len - 1 then
      match storage_read s (v.index_to_lookup i) with
      | some cur =>
        some (cur, ⟨v.pfx, v.len - 1⟩, storage_remove s (v.index_to_lookup i))
      | none => none
    else
      match storage_read s (v.index_to_lookup (v.len - 1)),
            storage_read s (v.index_to_lookup i) with
      | some lastVal, some cur =>
        some (cur, ⟨v.pfx, v.len - 1⟩,
          storage_remove (storage_write s (v.index_to_lookup i) lastVal)
            (v.index_to_lookup (v.len - 1)))
      | _, _ => none
  else none

/-- Removes the store slots of positions `0..n` of namespace `p`. -/
def clearSlots (p : Bytes) : Nat → Store → Store
  | 0, s => s
  | n + 1, s => clearSlots p n (storage_remove s (p ++ u64_to_le_bytes n))

/-- Modelled from the spec: `clear()` removes every occupied position and
resets the length to zero (§4.1). -/
def clear (v : Vector) (s : Store) : Vector × Store :=
  (⟨v.pfx, 0⟩, clearSlots v.pfx v.len s)

/-- Collects a list of optional results, aborting (`none`) if any is
missing. -/
def collectSome {α : Type} : List (Option α) → Option (List α)
  | [] => some []
  | none :: _ => none
  | some a :: rest => (collectSome rest).map (a :: ·)

/-- Modelled from the spec: `iter_raw()` produces the values at positions
`0..length` in increasing order (§4.1); a missing slot is a fatal fault. -/
def iter_raw (v : Vector) (s : Store) : Option (List Bytes) :=
  collectSome ((List.range v.len).map (fun i => v.get_raw s i))

end Vector

/-- A serialization codec for a caller-chosen type (the Borsh `Codec`
collaborator of §2): `enc` models `try_to_vec`, `dec` models
`try_from_slice`, both returning `none` on failure. -/
structure Codec (α : Type) where
  enc : α → Option Bytes
  dec : Bytes → Option α

/-- `UnorderedMap<K, V>`: an index-lookup prefix plus two parallel vectors
(`unordered_map.rs`, lines 16-21).  The typed parameters `K`, `V` live only
in the typed layer, which passes a `Codec` explicitly. -/
structure UnorderedMap where
  key_index_pfx : Bytes
  keys : Vector
  values : Vector
deriving DecidableEq

namespace UnorderedMap

/-- `UnorderedMap::new(id)` (lines 42-60): derives the index prefix
`id ++ b'i'` and the two vector namespaces `id ++ b'k'`, `id ++ b'v'`. -/
def new (id : Bytes) : UnorderedMap :=
  ⟨id ++ [105], Vector.new (id ++ [107]), Vector.new (id ++ [118])⟩

/-- `UnorderedMap::len` (lines 31-39): panics (`none`) when the two vector
lengths disagree, otherwise returns the common length. -/
def len (m : UnorderedMap) : Option Nat :=
  if m.keys.len = m.values.len then some m.keys.len else none

/-- `UnorderedMap::serialize_index` (lines 62-64): `index.to_le_bytes()`. -/
def serialize_index (index : Nat) : Bytes := u64_to_le_bytes index

/-- `UnorderedMap::deserialize_index` (lines 66-70): `copy_from_slice` into
a fixed `[u8; 8]` panics (`none`) unless the slice is exactly 8 bytes. -/
def deserialize_index (raw_index : Bytes) : Option Nat :=
  if raw_index.length = 8 then some (from_le_bytes raw_index) else none

/-- `UnorderedMap::raw_key_to_index_lookup` (lines 72-77). -/
def raw_key_to_index_lookup (m : UnorderedMap) (raw_key : Bytes) : Bytes :=
  m.key_index_pfx ++ raw_key

/-- `UnorderedMap::get_index_raw` (lines 80-83). -/
def get_index_raw (m : UnorderedMap) (s : Store) (key_raw : Bytes) :
    Option (Option Nat) :=
  match storage_read s (m.raw_key_to_index_lookup key_raw) with
  | none => some none
  | some raw => (deserialize_index raw).map some

/-- `UnorderedMap::get_raw` (lines 86-91): a present index entry whose
vector slot is missing is `ERR_INCONSISTENT_STATE` (abort). -/
def get_raw (m : UnorderedMap) (s : Store) (key_raw : Bytes) :
    Option (Option Bytes) :=
  match m.get_index_raw s key_raw with
  | none => none
  | some none => some none
  | some (some index) =>
    match m.values.get_raw s index with
    | some x => some (some x)
    | none => none

/-- `UnorderedMap::insert_raw` (lines 97-115). -/
def insert_raw (m : UnorderedMap) (s : Store) (key_raw value_raw : Bytes) :
    Option (Option Bytes × UnorderedMap × Store) :=
  let index_lookup := m.raw_key_to_index_lookup key_raw
  match storage_read s index_lookup with
  | some index_raw =>
    match deserialize_index index_raw with
    | none => none
    | some index =>
      match m.values.replace_raw s index value_raw with
      | none => none
      | some (old, s') => some (some old, m, s')
  | none =>
    match m.len with
    | none => none
    | some next_index =>
      let s1 := storage_write s index_lookup (serialize_index next_index)
      let ks := m.keys.push_raw s1 key_raw
      let vs := m.values.push_raw ks.2 value_raw
      some (none, ⟨m.key_index_pfx, ks.1, vs.1⟩, vs.2)

/-- `UnorderedMap::remove_raw` (lines 119-148). -/
def remove_raw (m : UnorderedMap) (s : Store) (key_raw : Bytes) :
    Option (Option Bytes × UnorderedMap × Store) :=
  let index_lookup := m.raw_key_to_index_lookup key_raw
  match storage_read s index_lookup with
  | none => some (none, m, s)
  | some index_raw =>
    match m.len with
    | none => none
    | some n =>
      let step : Option Store :=
        if n = 1 then some (storage_remove s index_lookup)
        else
          match m.keys.get_raw s (n - 1) with
          | none => none
          | some last_key_raw =>
            let s1 := storage_remove s index_lookup
            if last_key_raw ≠ key_raw then
              some (storage_write s1 (m.raw_key_to_index_lookup last_key_raw)
                index_raw)
            else some s1
      match step with
      | none => none
      | some s2 =>
        match deserialize_index index_raw with
        | none => none
        | some index =>
          match m.keys.swap_remove_raw s2 index with
          | none => none
          | some (_, ks, s3) =>
            match m.values.swap_remove_raw s3 index with
            | none => none
            | some (old_value, vs, s4) =>
              some (some old_value, ⟨m.key_index_pfx, ks, vs⟩, s4)

/-- `UnorderedMap::serialize_key` (lines 156-161): serialization failure is
`env::panic(ERR_KEY_SERIALIZATION)`, an abort. -/
def serialize_key {K : Type} (ck : Codec K) (key : K) : Option Bytes :=
  match ck.enc key with
  | some x => some x
  | none => none

/-- `UnorderedMap::deserialize_value` (lines 163-168): deserialization
failure is `env::panic(ERR_VALUE_DESERIALIZATION)`, an abort. -/
def deserialize_value {V : Type} (cv : Codec V) (raw_value : Bytes) :
    Option V :=
  match cv.dec raw_value with
  | some x => some x
  | none => none

/-- `UnorderedMap::serialize_value` (lines 170-175): serialization failure
is `env::panic(ERR_VALUE_SERIALIZATION)`, an abort. -/
def serialize_value {V : Type} (cv : Codec V) (value : V) : Option Bytes :=
  match cv.enc value with
  | some x => some x
  | none => none

/-- `UnorderedMap::get` (lines 178-180). -/
def get {K V : Type} (ck : Codec K) (cv : Codec V) (m : UnorderedMap)
    (s : Store) (key : K) : Option (Option V) :=
  match serialize_key ck key with
  | none => none
  | some key_raw =>
    match m.get_raw s key_raw with
    | none => none
    | some none => some none
    | some (some value_raw) =>
      match deserialize_value cv value_raw with
      | none => none
      | some v => some (some v)

/-- `UnorderedMap::remove` (lines 184-187). -/
def remove {K V : Type} (ck : Codec K) (cv : Codec V) (m : UnorderedMap)
    (s : Store) (key : K) : Option (Option V × UnorderedMap × Store) :=
  match serialize_key ck key with
  | none => none
  | some key_raw =>
    match m.remove_raw s key_raw with
    | none => none
    | some (none, m', s') => some (none, m', s')
    | some (some value_raw, m', s') =>
      match deserialize_value cv value_raw with
      | none => none
      | some v => some (some v, m', s')

/-- `UnorderedMap::insert` (lines 193-196). -/
def insert {K V : Type} (ck : Codec K) (cv : Codec V) (m : UnorderedMap)
    (s : Store) (key : K) (value : V) :
    Option (Option V × UnorderedMap × Store) :=
  match serialize_key ck key with
  | none => none
  | some key_raw =>
    match serialize_value cv value with
    | none => none
    | some value_raw =>
      match m.insert_raw s key_raw value_raw with
      | none => none
      | some (none, m', s') => some (none, m', s')
      | some (some old_raw, m', s') =>
        match deserialize_value cv old_raw with
        | none => none
        | some v => some (some v, m', s')

/-- `UnorderedMap::clear` (lines 199-206): iterate the raw keys, remove each
index entry, then clear both vectors. -/
def clear (m : UnorderedMap) (s : Store) : Option (UnorderedMap × Store) :=
  match m.keys.iter_raw s with
  | none => none
  | some raw_keys =>
    let s1 := raw_keys.foldl
      (fun st rk => storage_remove st (m.raw_key_to_index_lookup rk)) s
    let ks := m.keys.clear s1
    let vs := m.values.clear ks.2
    some (⟨m.key_index_pfx, ks.1, vs.1⟩, vs.2)

/-- Typed iteration over one vector: decode each raw slot
(`Vector::iter`, used by `UnorderedMap::iter`); a decode failure is
`ERR_VALUE_DESERIALIZATION` / key analogue, an abort. -/
def iterTyped {α : Type} (c : Codec α) (v : Vector) (s : Store) :
    Option (List α) :=
  match v.iter_raw s with
  | none => none
  | some raws => Vector.collectSome (raws.map c.dec)

/-- `UnorderedMap::to_vec` (lines 209-211): materialize
`keys.iter().zip(values.iter())`. -/
def to_vec {K V : Type} (ck : Codec K) (cv : Codec V) (m : UnorderedMap)
    (s : Store) : Option (List (K × V)) :=
  match iterTyped ck m.keys s, iterTyped cv m.values s with
  | some ks, some vs => some (ks.zip vs)
  | _, _ => none

/-- Well-formedness of a map together with its backing store: the
invariants of §3 of the spec.  `base` records that the three key-space
prefixes are derived from one base identifier (as `UnorderedMap::new`
builds them); `slots` says every position holds a key, a value and a
matching index entry; `complete` says every index entry under the map's
namespace points back into the keys vector. -/
structure WF (m : UnorderedMap) (s : Store) : Prop where
  base : ∃ id, m.key_index_pfx = id ++ [105] ∧ m.keys.pfx = id ++ [107] ∧
    m.values.pfx = id ++ [118]
  len_eq : m.keys.len = m.values.len
  len_lt : m.keys.len < 2 ^ 64
  slots : ∀ i, i < m.keys.len → ∃ kb vb,
    storage_read s (m.keys.index_to_lookup i) = some kb ∧
    storage_read s (m.values.index_to_lookup i) = some vb ∧
    storage_read s (m.raw_key_to_index_lookup kb) =
      some (UnorderedMap.serialize_index i)
  complete : ∀ kraw ir,
    storage_read s (m.raw_key_to_index_lookup kraw) = some ir →
    ∃ i, i < m.keys.len ∧
      storage_read s (m.keys.index_to_lookup i) = some kraw ∧
      ir = UnorderedMap.serialize_index i

end UnorderedMap

/-- An abstract raw-layer operation on an `UnorderedMap` (used to state
invariants over arbitrary finite operation sequences). -/
inductive Op
  | ins (key_raw value_raw : Bytes)
  | rem (key_raw : Bytes)

/-- Run one raw operation, keeping the resulting map and store. -/
def applyOp (p : UnorderedMap × Store) : Op → Option (UnorderedMap × Store)
  | .ins k v => (p.1.insert_raw p.2 k v).map (fun r => (r.2.1, r.2.2))
  | .rem k => (p.1.remove_raw p.2 k).map (fun r => (r.2.1, r.2.2))

/-- Run a finite sequence of raw operations. -/
def applyOps (p : UnorderedMap × Store) : List Op → Option (UnorderedMap × Store)
  | [] => some p
  | op :: rest =>
    match applyOp p op with
    | none => none
    | some p' => applyOps p' rest

/-- Borsh codec for a `u64` value (8-byte little-endian). -/
def borshU64 : Codec Nat where
  enc n := if n < 2 ^ 64 then some (u64_to_le_bytes n) else none
  dec raw := if raw.length = 8 then some (from_le_bytes raw) else none

/-- Borsh codec for a byte string (4-byte little-endian `u32` length
followed by the bytes), modelling Borsh-encoded `String` keys. -/
def borshBytes : Codec Bytes where
  enc bs := if bs.length < 2 ^ 32 then some (to_le_bytes 4 bs.length ++ bs)
    else none
  dec raw := if 4 ≤ raw.length ∧ raw.length = 4 + from_le_bytes (raw.take 4)
    then some (raw.drop 4) else none

/-- Whether the value bytes currently stored under `kraw` (if any) decode
under `cv`; a well-formed typed map never stores bytes that fail its own
codec (§4.2 of the spec). -/
def oldValueDecodes {V : Type} (cv : Codec V) (m : UnorderedMap) (s : Store)
    (kraw : Bytes) : Bool :=
  match m.get_raw s kraw with
  | some (some vb) => (cv.dec vb).isSome
  | _ => true

/-- A concrete one-entry map used to instantiate the general theorems:
base identifier `[]`, holding the single entry `7 ↦ 9` under the `u64`
codec. -/
def mW : UnorderedMap := ⟨[105], ⟨[107], 1⟩, ⟨[118], 1⟩⟩

/-- The backing store of `mW`: one index entry, one keys slot, one values
slot. -/
def sW : Store :=
  [([105, 7, 0, 0, 0, 0, 0, 0, 0], [0, 0, 0, 0, 0, 0, 0, 0]),
   ([107, 0, 0, 0, 0, 0, 0, 0, 0], [7, 0, 0, 0, 0, 0, 0, 0]),
   ([118, 0, 0, 0, 0, 0, 0, 0, 0], [9, 0, 0, 0, 0, 0, 0, 0])]

/-! Canonical store keys and intermediate states of the three-insert /
one-remove scenario (claim C2), written out so the symbolic computation has
fixed syntactic shapes.  `scenL` is a map index-entry key, `scenK`/`scenV`
are keys/values vector slot keys. -/

/-- Index-entry store key for raw key `k` under base identifier `id`. -/
def scenL (id k : Bytes) : Bytes := (id ++ [105]) ++ k

/-- Keys-vector slot key for position `i` under base identifier `id`. -/
def scenK (id : Bytes) (i : Nat) : Bytes := (id ++ [107]) ++ u64_to_le_bytes i

/-- Values-vector slot key for position `i` under base identifier `id`. -/
def scenV (id : Bytes) (i : Nat) : Bytes := (id ++ [118]) ++ u64_to_le_bytes i

/-- Store after inserting the first entry `ra ↦ ba` into the empty map. -/
def scenS1 (id ra ba : Bytes) : Store :=
  storage_write (storage_write (storage_write []
    (scenL id ra) (UnorderedMap.serialize_index 0)) (scenK id 0) ra)
    (scenV id 0) ba

/-- Store after the second insert `rb ↦ bb`. -/
def scenS2 (id ra rb ba bb : Bytes) : Store :=
  storage_write (storage_write (storage_write (scenS1 id ra ba)
    (scenL id rb) (UnorderedMap.serialize_index 1)) (scenK id 1) rb)
    (scenV id 1) bb

/-- Store after the third insert `rc ↦ bc`. -/
def scenS3 (id ra rb rc ba bb bc : Bytes) : Store :=
  storage_write (storage_write (storage_write (scenS2 id ra rb ba bb)
    (scenL id rc) (UnorderedMap.serialize_index 2)) (scenK id 2) rc)
    (scenV id 2) bc

/-- Store during `remove(ra)`: index entry of `ra` removed, last key `rc`
redirected to position 0. -/
def scenS3b (id ra rb rc ba bb bc : Bytes) : Store :=
  storage_write (storage_remove (scenS3 id ra rb rc ba bb bc) (scenL id ra))
    (scenL id rc) (UnorderedMap.serialize_index 0)

/-- Store after the keys-vector swap-remove of position 0. -/
def scenS3c (id ra rb rc ba bb bc : Bytes) : Store :=
  storage_remove (storage_write (scenS3b id ra rb rc ba bb bc)
    (scenK id 0) rc) (scenK id 2)

/-- Store after the values-vector swap-remove of position 0 (final state of
the removal). -/
def scenS4 (id ra rb rc ba bb bc : Bytes) : Store :=
  storage_remove (storage_write (scenS3c id ra rb rc ba bb bc)
    (scenV id 0) bc) (scenV id 2)

/-- Map record after one insert. -/
def scenM1 (id : Bytes) : UnorderedMap :=
  ⟨id ++ [105], ⟨id ++ [107], 1⟩, ⟨id ++ [118], 1⟩⟩

/-- Map record after two inserts. -/
def scenM2 (id : Bytes) : UnorderedMap :=
  ⟨id ++ [105], ⟨id ++ [107], 2⟩, ⟨id ++ [118], 2⟩⟩

/-- Map record after three inserts. -/
def scenM3 (id : Bytes) : UnorderedMap :=
  ⟨id ++ [105], ⟨id ++ [107], 3⟩, ⟨id ++ [118], 3⟩⟩

/-- Map record after the removal. -/
def scenM4 (id : Bytes) : UnorderedMap :=
  ⟨id ++ [105], ⟨id ++ [107], 2⟩, ⟨id ++ [118], 2⟩⟩

/-- A codec whose encoder fails on the input `0`, to exhibit the behaviour
of the typed operations on a caller-supplied value the codec rejects. -/
def failCodec : Codec Nat where
  enc n := if n = 0 then none else some [n % 256]
  dec _ := some 1

/-! ### KeyStore read lemmas -/

theorem storage_read_remove (s : Store) (k k' : Bytes) :
    storage_read (storage_remove s k) k' =
      if k' = k then none else storage_read s k' := by
  induction s with
  | nil => simp [storage_remove, storage_read]
  | cons hd tl ih =>
    obtain ⟨hk, hv⟩ := hd
    by_cases h1 : hk = k <;> by_cases h2 : k' = k <;> by_cases h3 : hk = k' <;>
      simp_all [storage_remove, storage_read]

theorem storage_read_write (s : Store) (k v : Bytes) (k' : Bytes) :
    storage_read (storage_write s k v) k' =
      if k' = k then some v else storage_read s k' := by
  unfold storage_write
  simp only [storage_read]
  by_cases h : k = k'
  · subst h; simp
  · have h2 : k' ≠ k := fun hh => h hh.symm
    rw [if_neg h, if_neg h2, storage_read_remove, if_neg h2]

theorem storage_read_write_self (s : Store) (k v : Bytes) :
    storage_read (storage_write s k v) k = some v := by
  simp [storage_read_write]

theorem storage_read_write_ne (s : Store) (k v : Bytes) {k' : Bytes}
    (h : k' ≠ k) : storage_read (storage_write s k v) k' = storage_read s k' := by
  simp [storage_read_write, h]

theorem storage_read_remove_self (s : Store) (k : Bytes) :
    storage_read (storage_remove s k) k = none := by
  simp [storage_read_remove]

theorem storage_read_remove_ne (s : Store) (k : Bytes) {k' : Bytes}
    (h : k' ≠ k) : storage_read (storage_remove s k) k' = storage_read s k' := by
  simp [storage_read_remove, h]

/-! ### Little-endian encoding lemmas -/

theorem to_le_bytes_length (c n : Nat) : (to_le_bytes c n).length = c := by
  induction c generalizing n with
  | zero => rfl
  | succ c ih => simp [to_le_bytes, ih]

theorem from_to_le (c n : Nat) :
    from_le_bytes (to_le_bytes c n) = n % 256 ^ c := by
  induction c generalizing n with
  | zero => simp [to_le_bytes, from_le_bytes, Nat.mod_one]
  | succ c ih =>
    simp only [to_le_bytes, from_le_bytes, ih]
    have h1 : n % 256 ^ (c + 1) % 256 = n % 256 := by
      rw [pow_succ]
      exact Nat.mod_mod_of_dvd n ⟨256 ^ c, by ring⟩
    have h2 : n % 256 ^ (c + 1) / 256 = n / 256 % 256 ^ c := by
      rw [pow_succ']
      exact Nat.mod_mul_right_div_self n 256 (256 ^ c)
    omega

theorem u64_roundtrip (n : Nat) :
    from_le_bytes (u64_to_le_bytes n) = n % 2 ^ 64 := by
  have : (256 : Nat) ^ 8 = 2 ^ 64 := by norm_num
  rw [u64_to_le_bytes, from_to_le, this]

theorem u64_to_le_bytes_length (n : Nat) : (u64_to_le_bytes n).length = 8 :=
  to_le_bytes_length 8 n

theorem u64_to_le_bytes_inj {i j : Nat} (hi : i < 2 ^ 64) (hj : j < 2 ^ 64)
    (h : u64_to_le_bytes i = u64_to_le_bytes j) : i = j := by
  have h1 := congrArg from_le_bytes h
  rw [u64_roundtrip, u64_roundtrip, Nat.mod_eq_of_lt hi,
    Nat.mod_eq_of_lt hj] at h1
  exact h1

theorem deserialize_serialize (n : Nat) :
    UnorderedMap.deserialize_index (UnorderedMap.serialize_index n) =
      some (n % 2 ^ 64) := by
  simp [UnorderedMap.deserialize_index, UnorderedMap.serialize_index,
    u64_to_le_bytes_length, u64_roundtrip]

theorem deserialize_serialize_of_lt {n : Nat} (h : n < 2 ^ 64) :
    UnorderedMap.deserialize_index (UnorderedMap.serialize_index n) = some n := by
  rw [deserialize_serialize, Nat.mod_eq_of_lt h]

/-! ### Key-space disjointness -/

theorem append_cons_ne {id x y : Bytes} {a b : Nat} (h : a ≠ b) :
    id ++ a :: x ≠ id ++ b :: y := by
  intro he
  have h2 := List.append_cancel_left he
  simp only [List.cons.injEq] at h2
  exact h h2.1

theorem append_cons_eq_iff {id x y : Bytes} {a : Nat} :
    id ++ a :: x = id ++ a :: y ↔ x = y := by
  constructor
  · intro he
    have h2 := List.append_cancel_left he
    simpa using h2
  · intro he
    rw [he]

theorem append_singleton_append (id : Bytes) (a : Nat) (x : Bytes) :
    (id ++ [a]) ++ x = id ++ a :: x := by
  simp

/-! ### Shape lemmas for the spec-modelled Vector -/

theorem Vector.swap_remove_raw_shape {v : Vector} {s : Store} {i : Nat}
    {b : Bytes} {v' : Vector} {s' : Store}
    (h : v.swap_remove_raw s i = some (b, v', s')) :
    v'.pfx = v.pfx ∧ v'.len = v.len - 1 := by
  unfold Vector.swap_remove_raw at h
  split at h
  · split at h
    · split at h
      · simp only [Option.some.injEq, Prod.mk.injEq] at h
        obtain ⟨-, hv, -⟩ := h
        rw [← hv]
        exact ⟨rfl, rfl⟩
      · exact absurd h (by simp)
    · split at h
      · simp only [Option.some.injEq, Prod.mk.injEq] at h
        obtain ⟨-, hv, -⟩ := h
        rw [← hv]
        exact ⟨rfl, rfl⟩
      · exact absurd h (by simp)
  · exact absurd h (by simp)

theorem Vector.replace_raw_store {v : Vector} {s : Store} {i : Nat}
    {b old : Bytes} {s' : Store}
    (h : v.replace_raw s i b = some (old, s')) :
    i < v.len ∧ storage_read s (v.index_to_lookup i) = some old ∧
      s' = storage_write s (v.index_to_lookup i) b := by
  unfold Vector.replace_raw at h
  split at h
  · split at h
    · simp only [Option.some.injEq, Prod.mk.injEq] at h
      refine ⟨by assumption, ?_, h.2.symm⟩
      rw [← h.1]
      assumption
    · exact absurd h (by simp)
  · exact absurd h (by simp)

/-! ### Computation lemmas: each operation's result, given the values read
at its decision points -/

theorem Vector.get_raw_eq {v : Vector} {s : Store} {i : Nat} (h : i < v.len) :
    v.get_raw s i = storage_read s (v.index_to_lookup i) := by
  simp [Vector.get_raw, h]

theorem Vector.replace_raw_eq {v : Vector} {s : Store} {i : Nat}
    {old : Bytes} (b : Bytes) (h1 : i < v.len)
    (hr : storage_read s (v.index_to_lookup i) = some old) :
    v.replace_raw s i b =
      some (old, storage_write s (v.index_to_lookup i) b) := by
  simp only [Vector.replace_raw, if_pos h1, hr]

theorem Vector.swap_remove_last_eq {v : Vector} {s : Store} {i : Nat}
    {cur : Bytes} (h1 : i < v.len) (h2 : i = v.len - 1)
    (hr : storage_read s (v.index_to_lookup i) = some cur) :
    v.swap_remove_raw s i = some (cur, ⟨v.pfx, v.len - 1⟩,
      storage_remove s (v.index_to_lookup i)) := by
  simp only [Vector.swap_remove_raw, if_pos h1, if_pos h2, hr]

theorem Vector.swap_remove_mid_eq {v : Vector} {s : Store} {i : Nat}
    {lastVal cur : Bytes} (h1 : i < v.len) (h2 : ¬ i = v.len - 1)
    (hlast : storage_read s (v.index_to_lookup (v.len - 1)) = some lastVal)
    (hcur : storage_read s (v.index_to_lookup i) = some cur) :
    v.swap_remove_raw s i = some (cur, ⟨v.pfx, v.len - 1⟩,
      storage_remove (storage_write s (v.index_to_lookup i) lastVal)
        (v.index_to_lookup (v.len - 1))) := by
  simp only [Vector.swap_remove_raw, if_pos h1, if_neg h2, hlast, hcur]

theorem map_get_raw_none {m : UnorderedMap} {s : Store} {kraw : Bytes}
    (hread : storage_read s (m.raw_key_to_index_lookup kraw) = none) :
    m.get_raw s kraw = some none := by
  simp [UnorderedMap.get_raw, UnorderedMap.get_index_raw, hread]

theorem map_get_raw_some {m : UnorderedMap} {s : Store} {kraw ir vb : Bytes}
    {q : Nat}
    (hread : storage_read s (m.raw_key_to_index_lookup kraw) = some ir)
    (hdes : UnorderedMap.deserialize_index ir = some q)
    (hq : q < m.values.len)
    (hval : storage_read s (m.values.index_to_lookup q) = some vb) :
    m.get_raw s kraw = some (some vb) := by
  simp only [UnorderedMap.get_raw, UnorderedMap.get_index_raw, hread, hdes,
    Option.map_some', Vector.get_raw, if_pos hq, hval]

theorem insert_raw_found_eq {m : UnorderedMap} {s : Store}
    {kraw ir old : Bytes} {p : Nat} (vraw : Bytes)
    (hread : storage_read s (m.raw_key_to_index_lookup kraw) = some ir)
    (hdes : UnorderedMap.deserialize_index ir = some p)
    (hp : p < m.values.len)
    (hval : storage_read s (m.values.index_to_lookup p) = some old) :
    m.insert_raw s kraw vraw = some (some old, m,
      storage_write s (m.values.index_to_lookup p) vraw) := by
  simp only [UnorderedMap.insert_raw, hread, hdes,
    Vector.replace_raw_eq vraw hp hval]

theorem insert_raw_notfound_eq {m : UnorderedMap} {s : Store}
    {kraw : Bytes} {n : Nat} (vraw : Bytes)
    (hread : storage_read s (m.raw_key_to_index_lookup kraw) = none)
    (hlen : m.len = some n) :
    m.insert_raw s kraw vraw = some (none,
      ⟨m.key_index_pfx, ⟨m.keys.pfx, m.keys.len + 1⟩,
        ⟨m.values.pfx, m.values.len + 1⟩⟩,
      storage_write (storage_write
          (storage_write s (m.raw_key_to_index_lookup kraw)
            (UnorderedMap.serialize_index n))
          (m.keys.index_to_lookup m.keys.len) kraw)
        (m.values.index_to_lookup m.values.len) vraw) := by
  simp only [UnorderedMap.insert_raw, hread, hlen, Vector.push_raw]

theorem remove_raw_single_eq {m : UnorderedMap} {s : Store}
    {kraw ir a b : Bytes} {p : Nat} {ks vs : Vector} {s3 s4 : Store}
    (hread : storage_read s (m.raw_key_to_index_lookup kraw) = some ir)
    (hlen : m.len = some 1)
    (hdes : UnorderedMap.deserialize_index ir = some p)
    (hk : m.keys.swap_remove_raw
      (storage_remove s (m.raw_key_to_index_lookup kraw)) p = some (a, ks, s3))
    (hv : m.values.swap_remove_raw s3 p = some (b, vs, s4)) :
    m.remove_raw s kraw = some (some b, ⟨m.key_index_pfx, ks, vs⟩, s4) := by
  simp only [UnorderedMap.remove_raw, hread, hlen]
  simp [hdes, hk, hv]

theorem remove_raw_lastkey_eq {m : UnorderedMap} {s : Store}
    {kraw ir lastk a b : Bytes} {n p : Nat} {ks vs : Vector} {s3 s4 : Store}
    (hread : storage_read s (m.raw_key_to_index_lookup kraw) = some ir)
    (hlen : m.len = some n) (hn : ¬ n = 1)
    (hlast : m.keys.get_raw s (n - 1) = some lastk) (heq : lastk = kraw)
    (hdes : UnorderedMap.deserialize_index ir = some p)
    (hk : m.keys.swap_remove_raw
      (storage_remove s (m.raw_key_to_index_lookup kraw)) p = some (a, ks, s3))
    (hv : m.values.swap_remove_raw s3 p = some (b, vs, s4)) :
    m.remove_raw s kraw = some (some b, ⟨m.key_index_pfx, ks, vs⟩, s4) := by
  simp only [UnorderedMap.remove_raw, hread, hlen, if_neg hn, hlast, heq,
    ne_eq, not_true_eq_false, if_neg, ite_false, hdes, hk, hv]

theorem remove_raw_swap_eq {m : UnorderedMap} {s : Store}
    {kraw ir lastk a b : Bytes} {n p : Nat} {ks vs : Vector} {s3 s4 : Store}
    (hread : storage_read s (m.raw_key_to_index_lookup kraw) = some ir)
    (hlen : m.len = some n) (hn : ¬ n = 1)
    (hlast : m.keys.get_raw s (n - 1) = some lastk) (hne : lastk ≠ kraw)
    (hdes : UnorderedMap.deserialize_index ir = some p)
    (hk : m.keys.swap_remove_raw
      (storage_write (storage_remove s (m.raw_key_to_index_lookup kraw))
        (m.raw_key_to_index_lookup lastk) ir) p = some (a, ks, s3))
    (hv : m.values.swap_remove_raw s3 p = some (b, vs, s4)) :
    m.remove_raw s kraw = some (some b, ⟨m.key_index_pfx, ks, vs⟩, s4) := by
  simp only [UnorderedMap.remove_raw, hread, hlen, if_neg hn, hlast, ne_eq,
    hne, not_false_eq_true, if_pos, ite_true, hdes, hk, hv]

/-! ### Prefix-shape helpers under well-formedness -/

theorem lookup_eq_of_base {m : UnorderedMap} {id : Bytes}
    (hbase : m.key_index_pfx = id ++ [105]) (kr : Bytes) :
    m.raw_key_to_index_lookup kr = id ++ 105 :: kr := by
  simp [UnorderedMap.raw_key_to_index_lookup, hbase]

theorem key_slot_eq_of_base {m : UnorderedMap} {id : Bytes}
    (hk : m.keys.pfx = id ++ [107]) (i : Nat) :
    m.keys.index_to_lookup i = id ++ 107 :: u64_to_le_bytes i := by
  simp [Vector.index_to_lookup, hk]

theorem val_slot_eq_of_base {m : UnorderedMap} {id : Bytes}
    (hv : m.values.pfx = id ++ [118]) (i : Nat) :
    m.values.index_to_lookup i = id ++ 118 :: u64_to_le_bytes i := by
  simp [Vector.index_to_lookup, hv]

theorem slot_ne_of_index_ne {id : Bytes} {c : Nat} {i j : Nat}
    (hi : i < 2 ^ 64) (hj : j < 2 ^ 64) (hne : i ≠ j) :
    id ++ c :: u64_to_le_bytes i ≠ id ++ c :: u64_to_le_bytes j := by
  intro h
  exact hne (u64_to_le_bytes_inj hi hj (append_cons_eq_iff.mp h))

theorem lookup_ne_lookup {id : Bytes} {k1 k2 : Bytes} (h : k1 ≠ k2) :
    id ++ 105 :: k1 ≠ id ++ 105 :: k2 := by
  intro he
  exact h (append_cons_eq_iff.mp he)

/-! ### Consequences of well-formedness -/

theorem WF_lookup_spec {m : UnorderedMap} {s : Store} {kraw ir : Bytes}
    (hw : UnorderedMap.WF m s)
    (hread : storage_read s (m.raw_key_to_index_lookup kraw) = some ir) :
    ∃ p vb, p < m.keys.len ∧ ir = UnorderedMap.serialize_index p ∧
      storage_read s (m.keys.index_to_lookup p) = some kraw ∧
      storage_read s (m.values.index_to_lookup p) = some vb := by
  obtain ⟨p, hp, hkp, hirp⟩ := hw.complete kraw ir hread
  obtain ⟨kb, vb, hkb, hvb, hib⟩ := hw.slots p hp
  exact ⟨p, vb, hp, hirp, hkp, hvb⟩

theorem WF_key_inj {m : UnorderedMap} {s : Store} {i j : Nat} {kb : Bytes}
    (hw : UnorderedMap.WF m s)
    (hi : i < m.keys.len) (hj : j < m.keys.len)
    (hri : storage_read s (m.keys.index_to_lookup i) = some kb)
    (hrj : storage_read s (m.keys.index_to_lookup j) = some kb) : i = j := by
  obtain ⟨kbi, vbi, hkbi, hvbi, hibi⟩ := hw.slots i hi
  obtain ⟨kbj, vbj, hkbj, hvbj, hibj⟩ := hw.slots j hj
  have e1 : kbi = kb := Option.some.inj (hkbi.symm.trans hri)
  have e2 : kbj = kb := Option.some.inj (hkbj.symm.trans hrj)
  subst e1; subst e2
  have e3 := Option.some.inj (hibi.symm.trans hibj)
  exact u64_to_le_bytes_inj (lt_trans hi hw.len_lt) (lt_trans hj hw.len_lt) e3

/-- Full characterization of `remove_raw` on a well-formed state when the
key is present: it succeeds, returns the stored value, deletes the index
entry, and leaves every other key's lookup result unchanged. -/
theorem remove_raw_spec {m : UnorderedMap} {s : Store} {kraw ir : Bytes}
    (hw : UnorderedMap.WF m s)
    (hread : storage_read s (m.raw_key_to_index_lookup kraw) = some ir) :
    ∃ vb s', m.remove_raw s kraw = some (some vb,
        ⟨m.key_index_pfx, ⟨m.keys.pfx, m.keys.len - 1⟩,
          ⟨m.values.pfx, m.values.len - 1⟩⟩, s') ∧
      m.get_raw s kraw = some (some vb) ∧
      UnorderedMap.get_raw ⟨m.key_index_pfx, ⟨m.keys.pfx, m.keys.len - 1⟩,
        ⟨m.values.pfx, m.values.len - 1⟩⟩ s' kraw = some none ∧
      (∀ kr2, kr2 ≠ kraw →
        UnorderedMap.get_raw ⟨m.key_index_pfx, ⟨m.keys.pfx, m.keys.len - 1⟩,
          ⟨m.values.pfx, m.values.len - 1⟩⟩ s' kr2 = m.get_raw s kr2) ∧
      storage_read s' (m.raw_key_to_index_lookup kraw) = none := by
  obtain ⟨id, hbase, hkpfx, hvpfx⟩ := hw.base
  obtain ⟨p, vb, hp, hir, hkp, hvp⟩ := WF_lookup_spec hw hread
  have hlv : m.values.len = m.keys.len := hw.len_eq.symm
  have hplt : p < 2 ^ 64 := lt_trans hp hw.len_lt
  have hdes : UnorderedMap.deserialize_index ir = some p := by
    rw [hir]; exact deserialize_serialize_of_lt hplt
  have hmlen : m.len = some m.keys.len := by
    simp [UnorderedMap.len, hw.len_eq]
  have hL : ∀ kr : Bytes, m.raw_key_to_index_lookup kr = id ++ 105 :: kr :=
    lookup_eq_of_base hbase
  have hK : ∀ i, m.keys.index_to_lookup i = id ++ 107 :: u64_to_le_bytes i :=
    key_slot_eq_of_base hkpfx
  have hV : ∀ i, m.values.index_to_lookup i = id ++ 118 :: u64_to_le_bytes i :=
    val_slot_eq_of_base hvpfx
  have neKL : ∀ (kr : Bytes) (i : Nat),
      m.keys.index_to_lookup i ≠ m.raw_key_to_index_lookup kr := by
    intro kr i; rw [hL, hK]; exact append_cons_ne (by decide)
  have neVL : ∀ (kr : Bytes) (i : Nat),
      m.values.index_to_lookup i ≠ m.raw_key_to_index_lookup kr := by
    intro kr i; rw [hL, hV]; exact append_cons_ne (by decide)
  have neVK : ∀ i j : Nat,
      m.values.index_to_lookup i ≠ m.keys.index_to_lookup j := by
    intro i j; rw [hK, hV]; exact append_cons_ne (by decide)
  have neLL : ∀ kr2 : Bytes, kr2 ≠ kraw →
      m.raw_key_to_index_lookup kr2 ≠ m.raw_key_to_index_lookup kraw := by
    intro kr2 h; rw [hL, hL]; exact lookup_ne_lookup h
  have hget_before : m.get_raw s kraw = some (some vb) :=
    map_get_raw_some hread hdes (by omega) hvp
  by_cases h1 : m.keys.len = 1
  · -- single-entry branch: swap-remove of the only slot
    have hp0 : p = 0 := by omega
    subst hp0
    have hk : m.keys.swap_remove_raw
        (storage_remove s (m.raw_key_to_index_lookup kraw)) 0 =
        some (kraw, ⟨m.keys.pfx, m.keys.len - 1⟩,
          storage_remove (storage_remove s (m.raw_key_to_index_lookup kraw))
            (m.keys.index_to_lookup 0)) := by
      apply Vector.swap_remove_last_eq hp (by omega)
      rw [storage_read_remove_ne _ _ (neKL kraw 0)]
      exact hkp
    have hv1 : m.values.swap_remove_raw
        (storage_remove (storage_remove s (m.raw_key_to_index_lookup kraw))
          (m.keys.index_to_lookup 0)) 0 =
        some (vb, ⟨m.values.pfx, m.values.len - 1⟩,
          storage_remove (storage_remove
            (storage_remove s (m.raw_key_to_index_lookup kraw))
            (m.keys.index_to_lookup 0)) (m.values.index_to_lookup 0)) := by
      apply Vector.swap_remove_last_eq (by omega) (by omega)
      rw [storage_read_remove_ne _ _ (neVK 0 0),
        storage_read_remove_ne _ _ (neVL kraw 0)]
      exact hvp
    have hafter : storage_read
        (storage_remove (storage_remove
          (storage_remove s (m.raw_key_to_index_lookup kraw))
          (m.keys.index_to_lookup 0)) (m.values.index_to_lookup 0))
        (m.raw_key_to_index_lookup kraw) = none := by
      rw [storage_read_remove_ne _ _ (neVL kraw 0).symm,
        storage_read_remove_ne _ _ (neKL kraw 0).symm,
        storage_read_remove_self]
    have hpres : ∀ kr2 : Bytes, kr2 ≠ kraw →
        storage_read (storage_remove (storage_remove
          (storage_remove s (m.raw_key_to_index_lookup kraw))
          (m.keys.index_to_lookup 0)) (m.values.index_to_lookup 0))
          (m.raw_key_to_index_lookup kr2) =
        storage_read s (m.raw_key_to_index_lookup kr2) := by
      intro kr2 h2
      rw [storage_read_remove_ne _ _ (neVL kr2 0).symm,
        storage_read_remove_ne _ _ (neKL kr2 0).symm,
        storage_read_remove_ne _ _ (neLL kr2 h2)]
    refine ⟨vb, _, remove_raw_single_eq hread (h1 ▸ hmlen) hdes hk hv1,
      hget_before, map_get_raw_none hafter, ?_, hafter⟩
    intro kr2 hne2
    rcases hr2 : storage_read s (m.raw_key_to_index_lookup kr2) with _ | ir2
    · rw [map_get_raw_none hr2]
      apply map_get_raw_none
      show storage_read _ (m.raw_key_to_index_lookup kr2) = none
      rw [hpres kr2 hne2]
      exact hr2
    · exfalso
      obtain ⟨q, hq, hkq, -⟩ := hw.complete kr2 ir2 hr2
      have hq0 : q = 0 := by omega
      subst hq0
      exact hne2 (Option.some.inj (hkq.symm.trans hkp))
  · -- at least two entries
    have hn2 : 2 ≤ m.keys.len := by omega
    have hlast1 : m.keys.len - 1 < m.keys.len := by omega
    have hlastlt : m.keys.len - 1 < 2 ^ 64 := by
      have := hw.len_lt; omega
    obtain ⟨lastk, lastv, hklast, hvlast, hilast⟩ :=
      hw.slots (m.keys.len - 1) hlast1
    have hlast_get : m.keys.get_raw s (m.keys.len - 1) = some lastk := by
      rw [Vector.get_raw_eq hlast1]; exact hklast
    by_cases h2 : lastk = kraw
    · -- removed key sits in the last slot: no index rewrite, no swap move
      subst h2
      have hpn : p = m.keys.len - 1 := WF_key_inj hw hp hlast1 hkp hklast
      have hk : m.keys.swap_remove_raw
          (storage_remove s (m.raw_key_to_index_lookup lastk)) p =
          some (lastk, ⟨m.keys.pfx, m.keys.len - 1⟩,
            storage_remove (storage_remove s
              (m.raw_key_to_index_lookup lastk))
              (m.keys.index_to_lookup p)) := by
        apply Vector.swap_remove_last_eq hp hpn
        rw [storage_read_remove_ne _ _ (neKL lastk p)]
        exact hkp
      have hv1 : m.values.swap_remove_raw
          (storage_remove (storage_remove s
            (m.raw_key_to_index_lookup lastk)) (m.keys.index_to_lookup p)) p =
          some (vb, ⟨m.values.pfx, m.values.len - 1⟩,
            storage_remove (storage_remove (storage_remove s
              (m.raw_key_to_index_lookup lastk))
              (m.keys.index_to_lookup p)) (m.values.index_to_lookup p)) := by
        apply Vector.swap_remove_last_eq (by omega) (by omega)
        rw [storage_read_remove_ne _ _ (neVK p p),
          storage_read_remove_ne _ _ (neVL lastk p)]
        exact hvp
      have hafter : storage_read
          (storage_remove (storage_remove
            (storage_remove s (m.raw_key_to_index_lookup lastk))
            (m.keys.index_to_lookup p)) (m.values.index_to_lookup p))
          (m.raw_key_to_index_lookup lastk) = none := by
        rw [storage_read_remove_ne _ _ (neVL lastk p).symm,
          storage_read_remove_ne _ _ (neKL lastk p).symm,
          storage_read_remove_self]
      have hpres : ∀ k' : Bytes, k' ≠ m.raw_key_to_index_lookup lastk →
          (∀ i, k' ≠ m.keys.index_to_lookup i) →
          (∀ i, k' ≠ m.values.index_to_lookup i) →
          storage_read (storage_remove (storage_remove
            (storage_remove s (m.raw_key_to_index_lookup lastk))
            (m.keys.index_to_lookup p)) (m.values.index_to_lookup p)) k' =
          storage_read s k' := by
        intro k' hx1 hx2 hx3
        rw [storage_read_remove_ne _ _ (hx3 p),
          storage_read_remove_ne _ _ (hx2 p),
          storage_read_remove_ne _ _ hx1]
      refine ⟨vb, _, remove_raw_lastkey_eq hread hmlen h1 hlast_get rfl hdes
        hk hv1, hget_before, map_get_raw_none hafter, ?_, hafter⟩
      intro kr2 hne2
      rcases hr2 : storage_read s (m.raw_key_to_index_lookup kr2) with _ | ir2
      · rw [map_get_raw_none hr2]
        apply map_get_raw_none
        show storage_read _ (m.raw_key_to_index_lookup kr2) = none
        rw [hpres _ (neLL kr2 hne2) (fun i => (neKL kr2 i).symm)
          (fun i => (neVL kr2 i).symm)]
        exact hr2
      · obtain ⟨q, hq, hkq, hirq⟩ := hw.complete kr2 ir2 hr2
        obtain ⟨kbq, vbq, hkbq, hvbq, hibq⟩ := hw.slots q hq
        have hqp : q ≠ p := by
          intro hqp
          subst hqp
          exact hne2 (Option.some.inj (hkq.symm.trans hkp))
        have hqlt : q < 2 ^ 64 := lt_trans hq hw.len_lt
        have hdes2 : UnorderedMap.deserialize_index ir2 = some q := by
          rw [hirq]; exact deserialize_serialize_of_lt hqlt
        have hread2after : storage_read (storage_remove (storage_remove
            (storage_remove s (m.raw_key_to_index_lookup lastk))
            (m.keys.index_to_lookup p)) (m.values.index_to_lookup p))
            (m.raw_key_to_index_lookup kr2) = some ir2 := by
          rw [hpres _ (neLL kr2 hne2) (fun i => (neKL kr2 i).symm)
            (fun i => (neVL kr2 i).symm)]
          exact hr2
        have hvalafter : storage_read (storage_remove (storage_remove
            (storage_remove s (m.raw_key_to_index_lookup lastk))
            (m.keys.index_to_lookup p)) (m.values.index_to_lookup p))
            (m.values.index_to_lookup q) = some vbq := by
          rw [storage_read_remove_ne, storage_read_remove_ne _ _ (neVK q p),
            storage_read_remove_ne _ _ (neVL lastk q)]
          · exact hvbq
          · rw [hV, hV]; exact slot_ne_of_index_ne hqlt hplt hqp
        rw [map_get_raw_some hr2 hdes2 (by omega) hvbq]
        exact map_get_raw_some hread2after hdes2 (by
          show q < m.values.len - 1
          omega) hvalafter
    · -- general branch: last entry's index is redirected to slot p
      have hpn : p ≠ m.keys.len - 1 := by
        intro hpe
        rw [hpe] at hkp
        exact h2 (Option.some.inj (hklast.symm.trans hkp))
      have hk : m.keys.swap_remove_raw
          (storage_write (storage_remove s (m.raw_key_to_index_lookup kraw))
            (m.raw_key_to_index_lookup lastk) ir) p =
          some (kraw, ⟨m.keys.pfx, m.keys.len - 1⟩,
            storage_remove (storage_write
              (storage_write (storage_remove s
                (m.raw_key_to_index_lookup kraw))
                (m.raw_key_to_index_lookup lastk) ir)
              (m.keys.index_to_lookup p) lastk)
              (m.keys.index_to_lookup (m.keys.len - 1))) := by
        apply Vector.swap_remove_mid_eq hp hpn
        · rw [storage_read_write_ne _ _ _ (neKL lastk (m.keys.len - 1)),
            storage_read_remove_ne _ _ (neKL kraw (m.keys.len - 1))]
          exact hklast
        · rw [storage_read_write_ne _ _ _ (neKL lastk p),
            storage_read_remove_ne _ _ (neKL kraw p)]
          exact hkp
      have hv1 : m.values.swap_remove_raw
          (storage_remove (storage_write
            (storage_write (storage_remove s
              (m.raw_key_to_index_lookup kraw))
              (m.raw_key_to_index_lookup lastk) ir)
            (m.keys.index_to_lookup p) lastk)
            (m.keys.index_to_lookup (m.keys.len - 1))) p =
          some (vb, ⟨m.values.pfx, m.values.len - 1⟩,
            storage_remove (storage_write
              (storage_remove (storage_write
                (storage_write (storage_remove s
                  (m.raw_key_to_index_lookup kraw))
                  (m.raw_key_to_index_lookup lastk) ir)
                (m.keys.index_to_lookup p) lastk)
                (m.keys.index_to_lookup (m.keys.len - 1)))
              (m.values.index_to_lookup p) lastv)
              (m.values.index_to_lookup (m.values.len - 1))) := by
        have e1 : m.values.len - 1 = m.keys.len - 1 := by omega
        apply Vector.swap_remove_mid_eq (by omega) (by omega)
        · rw [e1, storage_read_remove_ne _ _
              (neVK (m.keys.len - 1) (m.keys.len - 1)),
            storage_read_write_ne _ _ _ (neVK (m.keys.len - 1) p),
            storage_read_write_ne _ _ _ (neVL lastk (m.keys.len - 1)),
            storage_read_remove_ne _ _ (neVL kraw (m.keys.len - 1))]
          exact hvlast
        · rw [storage_read_remove_ne _ _ (neVK p (m.keys.len - 1)),
            storage_read_write_ne _ _ _ (neVK p p),
            storage_read_write_ne _ _ _ (neVL lastk p),
            storage_read_remove_ne _ _ (neVL kraw p)]
          exact hvp
      have hafter : storage_read (storage_remove (storage_write
          (storage_remove (storage_write
            (storage_write (storage_remove s
              (m.raw_key_to_index_lookup kraw))
              (m.raw_key_to_index_lookup lastk) ir)
            (m.keys.index_to_lookup p) lastk)
            (m.keys.index_to_lookup (m.keys.len - 1)))
          (m.values.index_to_lookup p) lastv)
          (m.values.index_to_lookup (m.values.len - 1)))
          (m.raw_key_to_index_lookup kraw) = none := by
        rw [storage_read_remove_ne _ _ (neVL kraw (m.values.len - 1)).symm,
          storage_read_write_ne _ _ _ (neVL kraw p).symm,
          storage_read_remove_ne _ _ (neKL kraw (m.keys.len - 1)).symm,
          storage_read_write_ne _ _ _ (neKL kraw p).symm,
          storage_read_write_ne _ _ _ (neLL lastk h2).symm,
          storage_read_remove_self]
      have hpres : ∀ k' : Bytes,
          k' ≠ m.raw_key_to_index_lookup kraw →
          k' ≠ m.raw_key_to_index_lookup lastk →
          k' ≠ m.keys.index_to_lookup p →
          k' ≠ m.keys.index_to_lookup (m.keys.len - 1) →
          k' ≠ m.values.index_to_lookup p →
          k' ≠ m.values.index_to_lookup (m.values.len - 1) →
          storage_read (storage_remove (storage_write
            (storage_remove (storage_write
              (storage_write (storage_remove s
                (m.raw_key_to_index_lookup kraw))
                (m.raw_key_to_index_lookup lastk) ir)
              (m.keys.index_to_lookup p) lastk)
              (m.keys.index_to_lookup (m.keys.len - 1)))
            (m.values.index_to_lookup p) lastv)
            (m.values.index_to_lookup (m.values.len - 1))) k' =
          storage_read s k' := by
        intro k' hx1 hx2 hx3 hx4 hx5 hx6
        rw [storage_read_remove_ne _ _ hx6, storage_read_write_ne _ _ _ hx5,
          storage_read_remove_ne _ _ hx4, storage_read_write_ne _ _ _ hx3,
          storage_read_write_ne _ _ _ hx2, storage_read_remove_ne _ _ hx1]
      have hreadlast : storage_read (storage_remove (storage_write
          (storage_remove (storage_write
            (storage_write (storage_remove s
              (m.raw_key_to_index_lookup kraw))
              (m.raw_key_to_index_lookup lastk) ir)
            (m.keys.index_to_lookup p) lastk)
            (m.keys.index_to_lookup (m.keys.len - 1)))
          (m.values.index_to_lookup p) lastv)
          (m.values.index_to_lookup (m.values.len - 1)))
          (m.raw_key_to_index_lookup lastk) = some ir := by
        rw [storage_read_remove_ne _ _ (neVL lastk (m.values.len - 1)).symm,
          storage_read_write_ne _ _ _ (neVL lastk p).symm,
          storage_read_remove_ne _ _ (neKL lastk (m.keys.len - 1)).symm,
          storage_read_write_ne _ _ _ (neKL lastk p).symm,
          storage_read_write_self]
      have hvalp : storage_read (storage_remove (storage_write
          (storage_remove (storage_write
            (storage_write (storage_remove s
              (m.raw_key_to_index_lookup kraw))
              (m.raw_key_to_index_lookup lastk) ir)
            (m.keys.index_to_lookup p) lastk)
            (m.keys.index_to_lookup (m.keys.len - 1)))
          (m.values.index_to_lookup p) lastv)
          (m.values.index_to_lookup (m.values.len - 1)))
          (m.values.index_to_lookup p) = some lastv := by
        rw [storage_read_remove_ne _ _ (by
            rw [hV, hV]
            exact slot_ne_of_index_ne hplt (by omega) (by omega)),
          storage_read_write_self]
      refine ⟨vb, _, remove_raw_swap_eq hread hmlen h1 hlast_get h2 hdes hk
        hv1, hget_before, map_get_raw_none hafter, ?_, hafter⟩
      intro kr2 hne2
      rcases hr2 : storage_read s (m.raw_key_to_index_lookup kr2) with _ | ir2
      · have hk2last : kr2 ≠ lastk := by
          intro he
          subst he
          exact Option.noConfusion (hilast.symm.trans hr2)
        rw [map_get_raw_none hr2]
        apply map_get_raw_none
        show storage_read _ (m.raw_key_to_index_lookup kr2) = none
        rw [hpres _ (neLL kr2 hne2)
          (by rw [hL, hL]; exact lookup_ne_lookup hk2last)
          (neKL kr2 p).symm (neKL kr2 (m.keys.len - 1)).symm
          (neVL kr2 p).symm (neVL kr2 (m.values.len - 1)).symm]
        exact hr2
      · obtain ⟨q, hq, hkq, hirq⟩ := hw.complete kr2 ir2 hr2
        obtain ⟨kbq, vbq, hkbq, hvbq, hibq⟩ := hw.slots q hq
        have hqp : q ≠ p := by
          intro hqp
          subst hqp
          exact hne2 (Option.some.inj (hkq.symm.trans hkp))
        have hqlt : q < 2 ^ 64 := lt_trans hq hw.len_lt
        have hdes2 : UnorderedMap.deserialize_index ir2 = some q := by
          rw [hirq]; exact deserialize_serialize_of_lt hqlt
        rw [map_get_raw_some hr2 hdes2 (by omega) hvbq]
        by_cases hq2 : q = m.keys.len - 1
        · subst hq2
          have ekr : kr2 = lastk := Option.some.inj (hkq.symm.trans hklast)
          subst ekr
          have evb : vbq = lastv := Option.some.inj (hvbq.symm.trans hvlast)
          subst evb
          exact map_get_raw_some hreadlast hdes
            (show p < m.values.len - 1 by omega) hvalp
        · have hk2last : kr2 ≠ lastk := by
            intro he
            subst he
            exact hq2 (WF_key_inj hw hq hlast1 hkq hklast)
          have hreadkr2 : storage_read (storage_remove (storage_write
              (storage_remove (storage_write
                (storage_write (storage_remove s
                  (m.raw_key_to_index_lookup kraw))
                  (m.raw_key_to_index_lookup lastk) ir)
                (m.keys.index_to_lookup p) lastk)
                (m.keys.index_to_lookup (m.keys.len - 1)))
              (m.values.index_to_lookup p) lastv)
              (m.values.index_to_lookup (m.values.len - 1)))
              (m.raw_key_to_index_lookup kr2) = some ir2 := by
            rw [hpres _ (neLL kr2 hne2)
              (by rw [hL, hL]; exact lookup_ne_lookup hk2last)
              (neKL kr2 p).symm (neKL kr2 (m.keys.len - 1)).symm
              (neVL kr2 p).symm (neVL kr2 (m.values.len - 1)).symm]
            exact hr2
          have hvalq : storage_read (storage_remove (storage_write
              (storage_remove (storage_write
                (storage_write (storage_remove s
                  (m.raw_key_to_index_lookup kraw))
                  (m.raw_key_to_index_lookup lastk) ir)
                (m.keys.index_to_lookup p) lastk)
                (m.keys.index_to_lookup (m.keys.len - 1)))
              (m.values.index_to_lookup p) lastv)
              (m.values.index_to_lookup (m.values.len - 1)))
              (m.values.index_to_lookup q) = some vbq := by
            rw [storage_read_remove_ne _ _ (by
                rw [hV, hV]
                exact slot_ne_of_index_ne hqlt (by omega) (by omega)),
              storage_read_write_ne _ _ _ (by
                rw [hV, hV]
                exact slot_ne_of_index_ne hqlt hplt hqp),
              storage_read_remove_ne _ _ (neVK q (m.keys.len - 1)),
              storage_read_write_ne _ _ _ (neVK q p),
              storage_read_write_ne _ _ _ (neVL lastk q),
              storage_read_remove_ne _ _ (neVL kraw q)]
            exact hvbq
          exact map_get_raw_some hreadkr2 hdes2
            (show q < m.values.len - 1 by omega) hvalq

theorem insert_raw_len_eq {m : UnorderedMap} {s : Store} {k v : Bytes}
    {r : Option Bytes} {m' : UnorderedMap} {s' : Store}
    (hlen : m.keys.len = m.values.len)
    (h : m.insert_raw s k v = some (r, m', s')) :
    m'.keys.len = m'.values.len := by
  simp only [UnorderedMap.insert_raw] at h
  split at h
  · split at h
    · exact Option.noConfusion h
    · split at h
      · exact Option.noConfusion h
      · simp only [Option.some.injEq, Prod.mk.injEq] at h
        rw [← h.2.1]
        exact hlen
  · split at h
    · exact Option.noConfusion h
    · simp only [Option.some.injEq, Prod.mk.injEq] at h
      rw [← h.2.1]
      simp [Vector.push_raw, hlen]

theorem remove_raw_len_eq {m : UnorderedMap} {s : Store} {k : Bytes}
    {r : Option Bytes} {m' : UnorderedMap} {s' : Store}
    (hlen : m.keys.len = m.values.len)
    (h : m.remove_raw s k = some (r, m', s')) :
    m'.keys.len = m'.values.len := by
  simp only [UnorderedMap.remove_raw] at h
  split at h
  · simp only [Option.some.injEq, Prod.mk.injEq] at h
    rw [← h.2.1]
    exact hlen
  · split at h
    · exact Option.noConfusion h
    · split at h
      · exact Option.noConfusion h
      · split at h
        · exact Option.noConfusion h
        · split at h
          · exact Option.noConfusion h
          · split at h
            · exact Option.noConfusion h
            · rename_i xk a ks s3 hswapk xv b vs s4 hswapv
              simp only [Option.some.injEq, Prod.mk.injEq] at h
              rw [← h.2.1]
              have hk := Vector.swap_remove_raw_shape hswapk
              have hv := Vector.swap_remove_raw_shape hswapv
              simp only [hk.2, hv.2, hlen]

theorem applyOp_len_eq {p p' : UnorderedMap × Store} {op : Op}
    (hlen : p.1.keys.len = p.1.values.len) (h : applyOp p op = some p') :
    p'.1.keys.len = p'.1.values.len := by
  obtain ⟨m, s⟩ := p
  obtain ⟨m', s'⟩ := p'
  cases op with
  | ins k v =>
    simp only [applyOp, Option.map_eq_some'] at h
    obtain ⟨⟨r, mr, sr⟩, hr, hr2⟩ := h
    simp only [Prod.mk.injEq] at hr2
    have := insert_raw_len_eq hlen hr
    rw [hr2.1] at this
    exact this
  | rem k =>
    simp only [applyOp, Option.map_eq_some'] at h
    obtain ⟨⟨r, mr, sr⟩, hr, hr2⟩ := h
    simp only [Prod.mk.injEq] at hr2
    have := remove_raw_len_eq hlen hr
    rw [hr2.1] at this
    exact this

theorem applyOps_len_eq (ops : List Op) : ∀ p p' : UnorderedMap × Store,
    p.1.keys.len = p.1.values.len → applyOps p ops = some p' →
    p'.1.keys.len = p'.1.values.len := by
  induction ops with
  | nil =>
    intro p p' h hh
    simp only [applyOps, Option.some.injEq] at hh
    rw [← hh]
    exact h
  | cons op rest ih =>
    intro p p' h hh
    simp only [applyOps] at hh
    split at hh
    · exact Option.noConfusion hh
    · exact ih _ _ (applyOp_len_eq h (by assumption)) hh

/-- C1: for every finite sequence of raw insert/remove operations applied
starting from an empty `UnorderedMap`, after each completed operation the
lengths of the keys and values vectors agree, so `len()` returns that
common length without aborting (it never hits `ERR_INCONSISTENT_STATE`). -/
theorem claim_C1 {ops : List Op} {id : Bytes} {m : UnorderedMap} {s : Store}
    (h : applyOps (UnorderedMap.new id, []) ops = some (m, s)) :
    m.keys.len = m.values.len ∧ m.len = some m.keys.len := by
  have heq : m.keys.len = m.values.len :=
    applyOps_len_eq ops (UnorderedMap.new id, []) (m, s) rfl h
  exact ⟨heq, by simp [UnorderedMap.len, heq]⟩

theorem claim_C1_witness :
    applyOps (UnorderedMap.new [], [])
        [Op.ins [1] [2], Op.ins [3] [4], Op.rem [1]] =
      some (⟨[105], ⟨[107], 1⟩, ⟨[118], 1⟩⟩,
        [([118, 0, 0, 0, 0, 0, 0, 0, 0], [4]),
         ([107, 0, 0, 0, 0, 0, 0, 0, 0], [3]),
         ([105, 3], [0, 0, 0, 0, 0, 0, 0, 0])]) ∧
    ((UnorderedMap.mk [105] ⟨[107], 1⟩ ⟨[118], 1⟩).keys.len =
      (UnorderedMap.mk [105] ⟨[107], 1⟩ ⟨[118], 1⟩).values.len ∧
    (UnorderedMap.mk [105] ⟨[107], 1⟩ ⟨[118], 1⟩).len =
      some (UnorderedMap.mk [105] ⟨[107], 1⟩ ⟨[118], 1⟩).keys.len) :=
  ⟨by decide,
   @claim_C1 [Op.ins [1] [2], Op.ins [3] [4], Op.rem [1]] []
     (UnorderedMap.mk [105] ⟨[107], 1⟩ ⟨[118], 1⟩)
     [([118, 0, 0, 0, 0, 0, 0, 0, 0], [4]),
      ([107, 0, 0, 0, 0, 0, 0, 0, 0], [3]),
      ([105, 3], [0, 0, 0, 0, 0, 0, 0, 0])] (by decide)⟩

/-- C8: a map created with base identifier `id` reads and writes its index
entries at `id ++ 'i' ++ raw_key` (`'i'` = byte 105), which hold the 8-byte
little-endian `u64` position, and its keys and values vectors use the
prefixes `id ++ 'k'` (107) and `id ++ 'v'` (118), all derived from the one
base identifier at construction. -/
theorem claim_C8 (id kraw : Bytes) (i p : Nat) :
    (UnorderedMap.new id).raw_key_to_index_lookup kraw = id ++ 105 :: kraw ∧
    (UnorderedMap.new id).keys.pfx = id ++ [107] ∧
    (UnorderedMap.new id).values.pfx = id ++ [118] ∧
    (UnorderedMap.new id).keys.index_to_lookup i =
      id ++ 107 :: u64_to_le_bytes i ∧
    (UnorderedMap.new id).values.index_to_lookup i =
      id ++ 118 :: u64_to_le_bytes i ∧
    UnorderedMap.serialize_index p = u64_to_le_bytes p ∧
    (UnorderedMap.serialize_index p).length = 8 ∧
    UnorderedMap.deserialize_index (UnorderedMap.serialize_index p) =
      some (p % 2 ^ 64) := by
  refine ⟨?_, rfl, rfl, ?_, ?_, rfl, u64_to_le_bytes_length p,
    deserialize_serialize p⟩
  · simp [UnorderedMap.new, UnorderedMap.raw_key_to_index_lookup]
  · simp [UnorderedMap.new, Vector.new, Vector.index_to_lookup]
  · simp [UnorderedMap.new, Vector.new, Vector.index_to_lookup]

/-- C10: `deserialize_index` aborts (returns `none`, the model of the
`copy_from_slice` panic) whenever the stored index value is not exactly 8
bytes, and every operation that decodes a stored index entry
(`get_index_raw`, `insert_raw` on an existing key, `remove_raw`) aborts
rather than misreading such an entry; on entries written by
`serialize_index` (8-byte little-endian `u64`) the decode always succeeds,
so the abort branch is unreachable. -/
theorem claim_C10 :
    (∀ raw : Bytes, raw.length ≠ 8 →
      UnorderedMap.deserialize_index raw = none) ∧
    (∀ (m : UnorderedMap) (s : Store) (kraw raw : Bytes),
      storage_read s (m.raw_key_to_index_lookup kraw) = some raw →
      raw.length ≠ 8 →
      m.get_index_raw s kraw = none ∧
      (∀ vraw, m.insert_raw s kraw vraw = none) ∧
      m.remove_raw s kraw = none) ∧
    (∀ n : Nat, UnorderedMap.deserialize_index (UnorderedMap.serialize_index n) =
      some (n % 2 ^ 64)) := by
  refine ⟨?_, ?_, deserialize_serialize⟩
  · intro raw hlen
    simp [UnorderedMap.deserialize_index, hlen]
  · intro m s kraw raw hread hlen
    refine ⟨?_, ?_, ?_⟩
    · simp [UnorderedMap.get_index_raw, hread,
        UnorderedMap.deserialize_index, hlen]
    · intro vraw
      simp [UnorderedMap.insert_raw, hread,
        UnorderedMap.deserialize_index, hlen]
    · simp only [UnorderedMap.remove_raw, hread]
      cases m.len with
      | none => rfl
      | some n =>
        have hd : UnorderedMap.deserialize_index raw = none := by
          simp [UnorderedMap.deserialize_index, hlen]
        by_cases h1 : n = 1
        · simp [h1, hd]
        · rcases hg : m.keys.get_raw s (n - 1) with _ | lastk
          · simp [h1, hg]
          · by_cases h2 : lastk = kraw
            · simp [h1, hg, h2, hd]
            · simp [h1, hg, h2, hd]

theorem claim_C10_witness :
    UnorderedMap.deserialize_index [0, 1, 2] = none ∧
    (UnorderedMap.new []).get_index_raw [([105, 7], [0, 1, 2])] [7] = none ∧
    UnorderedMap.deserialize_index (UnorderedMap.serialize_index 5) =
      some (5 % 2 ^ 64) :=
  ⟨claim_C10.1 [0, 1, 2] (by decide),
   (claim_C10.2.1 (UnorderedMap.new []) [([105, 7], [0, 1, 2])] [7] [0, 1, 2]
     (by decide) (by decide)).1,
   claim_C10.2.2 5⟩

/-! ### Typed-layer helpers -/

theorem serialize_key_eq {K : Type} {ck : Codec K} {key : K} {kraw : Bytes}
    (h : ck.enc key = some kraw) :
    UnorderedMap.serialize_key ck key = some kraw := by
  simp [UnorderedMap.serialize_key, h]

theorem get_typed_some_intro {K V : Type} {ck : Codec K} {cv : Codec V}
    {m : UnorderedMap} {s : Store} {key : K} {kraw vb : Bytes} {v0 : V}
    (hsk : UnorderedMap.serialize_key ck key = some kraw)
    (hraw : m.get_raw s kraw = some (some vb)) (hdec : cv.dec vb = some v0) :
    UnorderedMap.get ck cv m s key = some (some v0) := by
  simp only [UnorderedMap.get, hsk, hraw, UnorderedMap.deserialize_value,
    hdec]

theorem get_typed_none_intro {K V : Type} {ck : Codec K} {cv : Codec V}
    {m : UnorderedMap} {s : Store} {key : K} {kraw : Bytes}
    (hsk : UnorderedMap.serialize_key ck key = some kraw)
    (hraw : m.get_raw s kraw = some none) :
    UnorderedMap.get ck cv m s key = some none := by
  simp only [UnorderedMap.get, hsk, hraw]

theorem get_typed_some_elim {K V : Type} {ck : Codec K} {cv : Codec V}
    {m : UnorderedMap} {s : Store} {key : K} {kraw : Bytes} {v0 : V}
    (hsk : UnorderedMap.serialize_key ck key = some kraw)
    (h : UnorderedMap.get ck cv m s key = some (some v0)) :
    ∃ vb, m.get_raw s kraw = some (some vb) ∧ cv.dec vb = some v0 := by
  simp only [UnorderedMap.get, hsk] at h
  rcases hg : m.get_raw s kraw with _ | o
  · rw [hg] at h
    exact Option.noConfusion h
  · rcases o with _ | vb
    · rw [hg] at h
      exact Option.noConfusion (Option.some.inj h)
    · rw [hg] at h
      refine ⟨vb, rfl, ?_⟩
      simp only [UnorderedMap.deserialize_value] at h
      rcases hd : cv.dec vb with _ | w
      · rw [hd] at h
        exact Option.noConfusion h
      · rw [hd] at h
        simp only [Option.some.injEq] at h
        rw [h]

theorem get_raw_some_read {m : UnorderedMap} {s : Store} {kraw vb : Bytes}
    (h : m.get_raw s kraw = some (some vb)) :
    ∃ ir, storage_read s (m.raw_key_to_index_lookup kraw) = some ir := by
  rcases hr : storage_read s (m.raw_key_to_index_lookup kraw) with _ | ir
  · rw [map_get_raw_none hr] at h
    exact Option.noConfusion (Option.some.inj h)
  · exact ⟨ir, rfl⟩

/-- Well-formedness of the concrete one-entry instance. -/
theorem wfW : UnorderedMap.WF mW sW := by
  refine ⟨⟨[], rfl, rfl, rfl⟩, rfl, by norm_num [mW], ?_, ?_⟩
  · intro i hi
    have h0 : i = 0 := by
      have h1 : mW.keys.len = 1 := rfl
      omega
    subst h0
    exact ⟨[7, 0, 0, 0, 0, 0, 0, 0], [9, 0, 0, 0, 0, 0, 0, 0],
      by decide, by decide, by decide⟩
  · intro kraw ir h
    by_cases hk : kraw = [7, 0, 0, 0, 0, 0, 0, 0]
    · subst hk
      have h2 : storage_read sW
          (mW.raw_key_to_index_lookup [7, 0, 0, 0, 0, 0, 0, 0]) =
          some [0, 0, 0, 0, 0, 0, 0, 0] := by decide
      rw [h2] at h
      have e : ir = [0, 0, 0, 0, 0, 0, 0, 0] := (Option.some.inj h).symm
      exact ⟨0, by decide, by decide, by rw [e]; decide⟩
    · have hn : storage_read sW (mW.raw_key_to_index_lookup kraw) = none := by
        show storage_read sW (105 :: kraw) = none
        simp only [sW, storage_read]
        rw [if_neg, if_neg, if_neg]
        · intro he
          injection he with h1 h2
          exact absurd h1 (by decide)
        · intro he
          injection he with h1 h2
          exact absurd h1 (by decide)
        · intro he
          injection he with h1 h2
          exact hk h2.symm
      rw [hn] at h
      exact Option.noConfusion h

/-- C3: for every well-formed map and every key present in it, `remove`
returns the previously stored value, afterwards `get` of that key returns
`none`, and every other key that was present keeps its value. -/
theorem claim_C3 {K V : Type} (ck : Codec K) (cv : Codec V)
    (m : UnorderedMap) (s : Store) (key : K) (v0 : V) (kraw : Bytes)
    (hw : UnorderedMap.WF m s)
    (hek : ck.enc key = some kraw)
    (hpresent : UnorderedMap.get ck cv m s key = some (some v0)) :
    ∃ m' s', UnorderedMap.remove ck cv m s key = some (some v0, m', s') ∧
      UnorderedMap.get ck cv m' s' key = some none ∧
      (∀ (key2 : K) (kraw2 : Bytes) (w : V), ck.enc key2 = some kraw2 →
        kraw2 ≠ kraw →
        UnorderedMap.get ck cv m s key2 = some (some w) →
        UnorderedMap.get ck cv m' s' key2 = some (some w)) := by
  have hsk : UnorderedMap.serialize_key ck key = some kraw :=
    serialize_key_eq hek
  obtain ⟨vb, hraw, hdec⟩ := get_typed_some_elim hsk hpresent
  obtain ⟨ir, hread⟩ := get_raw_some_read hraw
  obtain ⟨vb', s', hrem, hgb, hga, hothers, hnone⟩ := remove_raw_spec hw hread
  have evb : vb' = vb := by
    have := hgb.symm.trans hraw
    exact Option.some.inj (Option.some.inj this)
  subst evb
  refine ⟨⟨m.key_index_pfx, ⟨m.keys.pfx, m.keys.len - 1⟩,
    ⟨m.values.pfx, m.values.len - 1⟩⟩, s', ?_, ?_, ?_⟩
  · simp only [UnorderedMap.remove, hsk, hrem,
      UnorderedMap.deserialize_value, hdec]
  · exact get_typed_none_intro hsk hga
  · intro key2 kraw2 w hek2 hne2 hget2
    have hsk2 : UnorderedMap.serialize_key ck key2 = some kraw2 :=
      serialize_key_eq hek2
    obtain ⟨wb, hraw2, hdec2⟩ := get_typed_some_elim hsk2 hget2
    refine get_typed_some_intro hsk2 ?_ hdec2
    rw [hothers kraw2 hne2]
    exact hraw2

theorem claim_C3_witness :
    ∃ m' s', UnorderedMap.remove borshU64 borshU64 mW sW 7 =
        some (some 9, m', s') ∧
      UnorderedMap.get borshU64 borshU64 m' s' 7 = some none ∧
      (∀ (key2 : Nat) (kraw2 : Bytes) (w : Nat),
        borshU64.enc key2 = some kraw2 →
        kraw2 ≠ [7, 0, 0, 0, 0, 0, 0, 0] →
        UnorderedMap.get borshU64 borshU64 mW sW key2 = some (some w) →
        UnorderedMap.get borshU64 borshU64 m' s' key2 = some (some w)) :=
  claim_C3 borshU64 borshU64 mW sW 7 9 [7, 0, 0, 0, 0, 0, 0, 0] wfW
    (by decide) (by decide)

/-- C4: removing the only entry of a well-formed single-entry map yields an
empty map (`len() = some 0`) and leaves no index entry for the removed key
in the store. -/
theorem claim_C4 {m : UnorderedMap} {s : Store} (kraw : Bytes)
    (hw : UnorderedMap.WF m s) (hone : m.keys.len = 1)
    (hkey : storage_read s (m.keys.index_to_lookup 0) = some kraw) :
    ∃ vb m' s', m.remove_raw s kraw = some (some vb, m', s') ∧
      m'.len = some 0 ∧
      storage_read s' (m'.raw_key_to_index_lookup kraw) = none ∧
      m'.get_raw s' kraw = some none := by
  obtain ⟨kb, vb, hkb, hvb, hib⟩ := hw.slots 0 (by omega)
  have e : kb = kraw := Option.some.inj (hkb.symm.trans hkey)
  subst e
  obtain ⟨vb', s', hrem, hgb, hga, hothers, hnone⟩ := remove_raw_spec hw hib
  refine ⟨vb', _, s', hrem, ?_, hnone, hga⟩
  have hlv := hw.len_eq
  simp only [UnorderedMap.len, hone, ← hlv]
  simp

theorem claim_C4_witness :
    ∃ vb m' s', mW.remove_raw sW [7, 0, 0, 0, 0, 0, 0, 0] =
        some (some vb, m', s') ∧
      m'.len = some 0 ∧
      storage_read s' (m'.raw_key_to_index_lookup [7, 0, 0, 0, 0, 0, 0, 0]) =
        none ∧
      m'.get_raw s' [7, 0, 0, 0, 0, 0, 0, 0] = some none :=
  claim_C4 [7, 0, 0, 0, 0, 0, 0, 0] wfW rfl (by decide)

/-! ### Standalone key-space disjointness lemmas -/

theorem key_slot_ne_lookup {m : UnorderedMap} {id : Bytes}
    (hbase : m.key_index_pfx = id ++ [105]) (hk : m.keys.pfx = id ++ [107])
    (kr : Bytes) (i : Nat) :
    m.keys.index_to_lookup i ≠ m.raw_key_to_index_lookup kr := by
  rw [lookup_eq_of_base hbase, key_slot_eq_of_base hk]
  exact append_cons_ne (by decide)

theorem val_slot_ne_lookup {m : UnorderedMap} {id : Bytes}
    (hbase : m.key_index_pfx = id ++ [105]) (hv : m.values.pfx = id ++ [118])
    (kr : Bytes) (i : Nat) :
    m.values.index_to_lookup i ≠ m.raw_key_to_index_lookup kr := by
  rw [lookup_eq_of_base hbase, val_slot_eq_of_base hv]
  exact append_cons_ne (by decide)

theorem key_slot_ne_val_slot {m : UnorderedMap} {id : Bytes}
    (hk : m.keys.pfx = id ++ [107]) (hv : m.values.pfx = id ++ [118])
    (i j : Nat) :
    m.keys.index_to_lookup i ≠ m.values.index_to_lookup j := by
  rw [key_slot_eq_of_base hk, val_slot_eq_of_base hv]
  exact append_cons_ne (by decide)

/-! ### Insert characterization on a well-formed state -/

/-- After `insert_raw` on a well-formed state, the key's index entry points
at a slot of the values vector that holds exactly the written value bytes,
and the map record keeps its prefixes. -/
theorem insert_raw_post {m : UnorderedMap} {s : Store} (kraw vraw : Bytes)
    (hw : UnorderedMap.WF m s) :
    ∃ r m' s', m.insert_raw s kraw vraw = some (r, m', s') ∧
      m'.key_index_pfx = m.key_index_pfx ∧
      m'.keys.pfx = m.keys.pfx ∧ m'.values.pfx = m.values.pfx ∧
      (∀ vb, r = some vb → m.get_raw s kraw = some (some vb)) ∧
      ∃ q ir', storage_read s' (m.raw_key_to_index_lookup kraw) = some ir' ∧
        UnorderedMap.deserialize_index ir' = some q ∧
        q < m'.values.len ∧
        storage_read s' (m.values.index_to_lookup q) = some vraw := by
  obtain ⟨id, hbase, hkpfx, hvpfx⟩ := hw.base
  have hlv : m.values.len = m.keys.len := hw.len_eq.symm
  rcases hr : storage_read s (m.raw_key_to_index_lookup kraw) with _ | ir
  · -- the key is absent: a fresh slot is appended
    have hmlen : m.len = some m.keys.len := by
      simp [UnorderedMap.len, hw.len_eq]
    have hins := insert_raw_notfound_eq vraw hr hmlen
    rw [hlv] at hins
    refine ⟨none, _, _, hins, rfl, rfl, rfl, by simp, m.keys.len,
      UnorderedMap.serialize_index m.keys.len, ?_,
      deserialize_serialize_of_lt hw.len_lt, ?_, ?_⟩
    · rw [storage_read_write_ne _ _ _
          (val_slot_ne_lookup hbase hvpfx kraw m.keys.len).symm,
        storage_read_write_ne _ _ _
          (key_slot_ne_lookup hbase hkpfx kraw m.keys.len).symm,
        storage_read_write_self]
    · show m.keys.len < m.keys.len + 1
      omega
    · exact storage_read_write_self _ _ _
  · -- the key is present: its slot is overwritten in place
    obtain ⟨p, vbold, hp, hir, hkp, hvp⟩ := WF_lookup_spec hw hr
    have hplt : p < 2 ^ 64 := lt_trans hp hw.len_lt
    have hdes : UnorderedMap.deserialize_index ir = some p := by
      rw [hir]; exact deserialize_serialize_of_lt hplt
    have hins := insert_raw_found_eq vraw hr hdes (by omega) hvp
    refine ⟨some vbold, m, _, hins, rfl, rfl, rfl, ?_, p, ir, ?_, hdes,
      by omega, ?_⟩
    · intro vb hvb
      rw [← Option.some.inj hvb]
      exact map_get_raw_some hr hdes (by omega) hvp
    · rw [storage_read_write_ne _ _ _
        (val_slot_ne_lookup hbase hvpfx kraw p).symm]
      exact hr
    · exact storage_read_write_self _ _ _

/-- Lift a raw `insert_raw` result to the typed `insert`, given that the
previous value (if any) decodes. -/
theorem insert_typed_of_raw {K V : Type} {ck : Codec K} {cv : Codec V}
    {m : UnorderedMap} {s : Store} {key : K} {value : V}
    {kraw vraw : Bytes} {r : Option Bytes} {m' : UnorderedMap} {s' : Store}
    (hsk : UnorderedMap.serialize_key ck key = some kraw)
    (hsv : UnorderedMap.serialize_value cv value = some vraw)
    (hraw : m.insert_raw s kraw vraw = some (r, m', s'))
    (hold : oldValueDecodes cv m s kraw = true)
    (hwsome : ∀ vb, r = some vb → m.get_raw s kraw = some (some vb)) :
    ∃ rt, UnorderedMap.insert ck cv m s key value = some (rt, m', s') := by
  cases r with
  | none => exact ⟨none, by simp only [UnorderedMap.insert, hsk, hsv, hraw]⟩
  | some vb =>
    have hg := hwsome vb rfl
    have hiss : (cv.dec vb).isSome = true := by
      unfold oldValueDecodes at hold
      rw [hg] at hold
      exact hold
    obtain ⟨w, hw2⟩ := Option.isSome_iff_exists.mp hiss
    exact ⟨some w, by simp only [UnorderedMap.insert, hsk, hsv, hraw,
      UnorderedMap.deserialize_value, hw2]⟩

/-- C5: on a well-formed map, immediately after `insert(key, value)` the
call `get(key)` returns `Some(value)` (given that the key and value encode,
the value round-trips, and any previously stored value decodes, so the
insert itself completes). -/
theorem claim_C5 {K V : Type} (ck : Codec K) (cv : Codec V)
    (m : UnorderedMap) (s : Store) (key : K) (value : V)
    (kraw vraw : Bytes)
    (hw : UnorderedMap.WF m s)
    (hek : ck.enc key = some kraw) (hev : cv.enc value = some vraw)
    (hdv : cv.dec vraw = some value)
    (hold : oldValueDecodes cv m s kraw = true) :
    ∃ rt m' s', UnorderedMap.insert ck cv m s key value = some (rt, m', s') ∧
      UnorderedMap.get ck cv m' s' key = some (some value) := by
  have hsk : UnorderedMap.serialize_key ck key = some kraw :=
    serialize_key_eq hek
  have hsv : UnorderedMap.serialize_value cv value = some vraw := by
    simp [UnorderedMap.serialize_value, hev]
  obtain ⟨r, m', s', hins, hpfx, hkpfx', hvpfx', hrold, q, ir', hread',
    hdes', hqlt, hval'⟩ := insert_raw_post kraw vraw hw
  obtain ⟨rt, hinst⟩ := insert_typed_of_raw hsk hsv hins hold hrold
  refine ⟨rt, m', s', hinst, ?_⟩
  apply get_typed_some_intro hsk ?_ hdv
  apply map_get_raw_some ?_ hdes' hqlt ?_
  · rw [show m'.raw_key_to_index_lookup kraw =
        m.raw_key_to_index_lookup kraw by
      simp [UnorderedMap.raw_key_to_index_lookup, hpfx]]
    exact hread'
  · rw [show m'.values.index_to_lookup q = m.values.index_to_lookup q by
      simp [Vector.index_to_lookup, hvpfx']]
    exact hval'

theorem claim_C5_witness :
    ∃ rt m' s', UnorderedMap.insert borshU64 borshU64 mW sW 7 5 =
        some (rt, m', s') ∧
      UnorderedMap.get borshU64 borshU64 m' s' 7 = some (some 5) :=
  claim_C5 borshU64 borshU64 mW sW 7 5 [7, 0, 0, 0, 0, 0, 0, 0]
    [5, 0, 0, 0, 0, 0, 0, 0] wfW (by decide) (by decide) (by decide)
    (by decide)

/-- C6: on a well-formed map, `insert(key, v1)` then `insert(key, v2)`
returns `Some(v1)` from the second call, `get(key)` returns `Some(v2)`
afterwards, and the second insert leaves the map record, the keys-vector
slots, and the key's index entry untouched. -/
theorem claim_C6 {K V : Type} (ck : Codec K) (cv : Codec V)
    (m : UnorderedMap) (s : Store) (key : K) (v1 v2 : V)
    (kraw v1raw v2raw : Bytes)
    (hw : UnorderedMap.WF m s)
    (hek : ck.enc key = some kraw)
    (hev1 : cv.enc v1 = some v1raw) (hdv1 : cv.dec v1raw = some v1)
    (hev2 : cv.enc v2 = some v2raw) (hdv2 : cv.dec v2raw = some v2)
    (hold : oldValueDecodes cv m s kraw = true) :
    ∃ r1 m1 s1 m2 s2,
      UnorderedMap.insert ck cv m s key v1 = some (r1, m1, s1) ∧
      UnorderedMap.insert ck cv m1 s1 key v2 = some (some v1, m2, s2) ∧
      UnorderedMap.get ck cv m2 s2 key = some (some v2) ∧
      m2.len = m1.len ∧ m2.keys = m1.keys ∧
      (∀ i, storage_read s2 (m1.keys.index_to_lookup i) =
        storage_read s1 (m1.keys.index_to_lookup i)) ∧
      storage_read s2 (m1.raw_key_to_index_lookup kraw) =
        storage_read s1 (m1.raw_key_to_index_lookup kraw) := by
  have hsk : UnorderedMap.serialize_key ck key = some kraw :=
    serialize_key_eq hek
  have hsv1 : UnorderedMap.serialize_value cv v1 = some v1raw := by
    simp [UnorderedMap.serialize_value, hev1]
  have hsv2 : UnorderedMap.serialize_value cv v2 = some v2raw := by
    simp [UnorderedMap.serialize_value, hev2]
  obtain ⟨id, hbase, hkpfx0, hvpfx0⟩ := hw.base
  obtain ⟨r, m1, s1, hins1, hpfx, hkpfx', hvpfx', hrold, q, ir', hread',
    hdes', hqlt, hval'⟩ := insert_raw_post kraw v1raw hw
  obtain ⟨rt, hinst1⟩ := insert_typed_of_raw hsk hsv1 hins1 hold hrold
  have hbase1 : m1.key_index_pfx = id ++ [105] := hpfx.trans hbase
  have hkpfx1 : m1.keys.pfx = id ++ [107] := hkpfx'.trans hkpfx0
  have hvpfx1 : m1.values.pfx = id ++ [118] := hvpfx'.trans hvpfx0
  have hlook1 : m1.raw_key_to_index_lookup kraw =
      m.raw_key_to_index_lookup kraw := by
    simp [UnorderedMap.raw_key_to_index_lookup, hpfx]
  have hvslot1 : ∀ i, m1.values.index_to_lookup i =
      m.values.index_to_lookup i := by
    intro i
    simp [Vector.index_to_lookup, hvpfx']
  have hread1 : storage_read s1 (m1.raw_key_to_index_lookup kraw) =
      some ir' := by
    rw [hlook1]; exact hread'
  have hval1 : storage_read s1 (m1.values.index_to_lookup q) =
      some v1raw := by
    rw [hvslot1]; exact hval'
  have hins2 := insert_raw_found_eq v2raw hread1 hdes' hqlt hval1
  refine ⟨rt, m1, s1, m1,
    storage_write s1 (m1.values.index_to_lookup q) v2raw,
    hinst1, ?_, ?_, rfl, rfl, ?_, ?_⟩
  · simp only [UnorderedMap.insert, hsk, hsv2, hins2,
      UnorderedMap.deserialize_value, hdv1]
  · apply get_typed_some_intro hsk ?_ hdv2
    apply map_get_raw_some ?_ hdes' hqlt
      (storage_read_write_self _ _ _)
    rw [storage_read_write_ne _ _ _
      (val_slot_ne_lookup hbase1 hvpfx1 kraw q).symm]
    exact hread1
  · intro i
    rw [storage_read_write_ne _ _ _
      (key_slot_ne_val_slot hkpfx1 hvpfx1 i q)]
  · rw [storage_read_write_ne _ _ _
      (val_slot_ne_lookup hbase1 hvpfx1 kraw q).symm]

theorem claim_C6_witness :
    ∃ r1 m1 s1 m2 s2,
      UnorderedMap.insert borshU64 borshU64 mW sW 3 11 = some (r1, m1, s1) ∧
      UnorderedMap.insert borshU64 borshU64 m1 s1 3 12 =
        some (some 11, m2, s2) ∧
      UnorderedMap.get borshU64 borshU64 m2 s2 3 = some (some 12) ∧
      m2.len = m1.len ∧ m2.keys = m1.keys ∧
      (∀ i, storage_read s2 (m1.keys.index_to_lookup i) =
        storage_read s1 (m1.keys.index_to_lookup i)) ∧
      storage_read s2 (m1.raw_key_to_index_lookup [3, 0, 0, 0, 0, 0, 0, 0]) =
        storage_read s1
          (m1.raw_key_to_index_lookup [3, 0, 0, 0, 0, 0, 0, 0]) :=
  claim_C6 borshU64 borshU64 mW sW 3 11 12 [3, 0, 0, 0, 0, 0, 0, 0]
    [11, 0, 0, 0, 0, 0, 0, 0] [12, 0, 0, 0, 0, 0, 0, 0] wfW (by decide)
    (by decide) (by decide) (by decide) (by decide) (by decide)

/-! ### Iteration and clear (claim C9) -/

theorem collectSome_map (g : Nat → Bytes) :
    ∀ (l : List Nat) (f : Nat → Option Bytes), (∀ i ∈ l, f i = some (g i)) →
    Vector.collectSome (l.map f) = some (l.map g) := by
  intro l
  induction l with
  | nil => intro f h; rfl
  | cons a tl ih =>
    intro f h
    simp only [List.map_cons]
    rw [h a (by simp)]
    simp only [Vector.collectSome]
    rw [ih f (fun i hi => h i (by simp [hi]))]
    rfl

theorem iter_raw_eq_of_WF {m : UnorderedMap} {s : Store}
    (hw : UnorderedMap.WF m s) :
    m.keys.iter_raw s = some ((List.range m.keys.len).map
      (fun i => (storage_read s (m.keys.index_to_lookup i)).getD [])) := by
  unfold Vector.iter_raw
  apply collectSome_map
  intro i hi
  rw [List.mem_range] at hi
  obtain ⟨kb, vb, hkb, hvb, hib⟩ := hw.slots i hi
  rw [Vector.get_raw_eq hi, hkb]
  rfl

theorem read_fold_remove_not_mem (F : Bytes → Bytes) :
    ∀ (l : List Bytes) (s : Store) (k : Bytes), (∀ rk ∈ l, F rk ≠ k) →
    storage_read (l.foldl (fun st rk => storage_remove st (F rk)) s) k =
      storage_read s k := by
  intro l
  induction l with
  | nil => intro s k h; rfl
  | cons a tl ih =>
    intro s k h
    simp only [List.foldl_cons]
    rw [ih _ _ (fun rk hrk => h rk (by simp [hrk])),
      storage_read_remove_ne _ _ (h a (by simp)).symm]

theorem read_fold_remove_mem (F : Bytes → Bytes) :
    ∀ (l : List Bytes) (s : Store) (k : Bytes), (∃ rk ∈ l, F rk = k) →
    storage_read (l.foldl (fun st rk => storage_remove st (F rk)) s) k =
      none := by
  intro l
  induction l with
  | nil =>
    intro s k h
    simp at h
  | cons a tl ih =>
    intro s k h
    by_cases hmem2 : ∃ rk ∈ tl, F rk = k
    · simp only [List.foldl_cons]
      exact ih _ _ hmem2
    · have hFa : F a = k := by
        rcases h with ⟨rk, hmem, hFk⟩
        rcases List.mem_cons.mp hmem with h1 | h2
        · rw [← h1]; exact hFk
        · exact absurd ⟨rk, h2, hFk⟩ hmem2
      simp only [List.foldl_cons]
      rw [read_fold_remove_not_mem F tl _ _
        (fun rk hrk hek => hmem2 ⟨rk, hrk, hek⟩), hFa,
        storage_read_remove_self]

theorem read_clearSlots_ne (pfx : Bytes) :
    ∀ (cnt : Nat) (s : Store) (k : Bytes),
    (∀ i : Nat, k ≠ pfx ++ u64_to_le_bytes i) →
    storage_read (Vector.clearSlots pfx cnt s) k = storage_read s k := by
  intro cnt
  induction cnt with
  | zero => intro s k h; rfl
  | succ c ih =>
    intro s k h
    simp only [Vector.clearSlots]
    rw [ih _ _ h, storage_read_remove_ne _ _ (h c)]

/-- C9: `clear()` on a well-formed map always completes, leaves a map of
length zero with no resolvable index entry for any raw key under the map's
namespace, and on an empty map it is a strict no-op (same record, same
store). -/
theorem claim_C9 {m : UnorderedMap} {s : Store} (hw : UnorderedMap.WF m s) :
    ∃ m' s', m.clear s = some (m', s') ∧
      m'.len = some 0 ∧
      (∀ kraw, storage_read s' (m'.raw_key_to_index_lookup kraw) = none) ∧
      (m.keys.len = 0 → m' = m ∧ s' = s) := by
  obtain ⟨id, hbase, hkpfx, hvpfx⟩ := hw.base
  have hiter := iter_raw_eq_of_WF hw
  have hclear : m.clear s = some
      (⟨m.key_index_pfx, ⟨m.keys.pfx, 0⟩, ⟨m.values.pfx, 0⟩⟩,
        Vector.clearSlots m.values.pfx m.values.len
          (Vector.clearSlots m.keys.pfx m.keys.len
            (((List.range m.keys.len).map (fun i =>
              (storage_read s (m.keys.index_to_lookup i)).getD [])).foldl
              (fun st rk =>
                storage_remove st (m.raw_key_to_index_lookup rk)) s))) := by
    simp only [UnorderedMap.clear, hiter, Vector.clear]
  refine ⟨_, _, hclear, by simp [UnorderedMap.len], ?_, ?_⟩
  · intro kraw
    show storage_read _ (m.raw_key_to_index_lookup kraw) = none
    rw [read_clearSlots_ne m.values.pfx _ _ _
        (fun i => (val_slot_ne_lookup hbase hvpfx kraw i).symm),
      read_clearSlots_ne m.keys.pfx _ _ _
        (fun i => (key_slot_ne_lookup hbase hkpfx kraw i).symm)]
    rcases hr : storage_read s (m.raw_key_to_index_lookup kraw) with _ | ir
    · rw [read_fold_remove_not_mem _ _ _ _ ?_]
      · exact hr
      · intro rk hrk hek
        rw [List.mem_map] at hrk
        obtain ⟨i, hi, hgi⟩ := hrk
        rw [List.mem_range] at hi
        obtain ⟨kb, vb, hkb, hvb, hib⟩ := hw.slots i hi
        have erk : rk = kb := by
          rw [← hgi, hkb]
          rfl
        have ekr : kb = kraw := by
          have h2 := append_cons_eq_iff.mp
            (((lookup_eq_of_base hbase rk).symm.trans hek).trans
              (lookup_eq_of_base hbase kraw))
          rw [← h2, erk]
        rw [ekr] at hib
        rw [hib] at hr
        exact Option.noConfusion hr
    · apply read_fold_remove_mem
      obtain ⟨i, hi, hki, hiri⟩ := hw.complete kraw ir hr
      refine ⟨kraw, ?_, rfl⟩
      rw [List.mem_map]
      exact ⟨i, List.mem_range.mpr hi, by rw [hki]; rfl⟩
  · intro h0
    have h0v : m.values.len = 0 := by
      have := hw.len_eq
      omega
    constructor
    · have e1 : (⟨m.keys.pfx, 0⟩ : Vector) = m.keys := by rw [← h0]
      have e2 : (⟨m.values.pfx, 0⟩ : Vector) = m.values := by rw [← h0v]
      rw [e1, e2]
    · rw [h0, h0v]
      rfl

theorem claim_C9_witness :
    ∃ m' s', mW.clear sW = some (m', s') ∧
      m'.len = some 0 ∧
      (∀ kraw, storage_read s' (m'.raw_key_to_index_lookup kraw) = none) ∧
      (mW.keys.len = 0 → m' = mW ∧ s' = sW) :=
  claim_C9 wfW

/-! ### The three-insert / one-remove scenario (claim C2) -/

theorem classKey_ne {c1 c2 : Nat} (id : Bytes) (x y : Bytes) (h : c1 ≠ c2) :
    (id ++ [c1]) ++ x ≠ (id ++ [c2]) ++ y := by
  simp only [append_singleton_append]
  exact append_cons_ne h

theorem classKey_ne_same {c : Nat} (id : Bytes) {x y : Bytes} (h : x ≠ y) :
    (id ++ [c]) ++ x ≠ (id ++ [c]) ++ y := by
  simp only [append_singleton_append]
  intro he
  exact h (append_cons_eq_iff.mp he)

/-- C2: from an empty map, inserting three keys with distinct encodings in
order `A, B, C` and then removing `A` makes iteration visit exactly `C`
then `B` (the formerly last entry now occupies `A`'s old slot):
`to_vec` yields `[(A,va),(B,vb),(C,vc)]` before the removal and
`[(C,vc),(B,vb)]` after it, and the removal returns `va`. -/
theorem claim_C2 {K V : Type} (ck : Codec K) (cv : Codec V) (id : Bytes)
    (A B C : K) (va vb vc : V) (ra rb rc ba bb bc : Bytes)
    (hA : ck.enc A = some ra) (hdA : ck.dec ra = some A)
    (hB : ck.enc B = some rb) (hdB : ck.dec rb = some B)
    (hC : ck.enc C = some rc) (hdC : ck.dec rc = some C)
    (hva : cv.enc va = some ba) (hdva : cv.dec ba = some va)
    (hvb : cv.enc vb = some bb) (hdvb : cv.dec bb = some vb)
    (hvc : cv.enc vc = some bc) (hdvc : cv.dec bc = some vc)
    (hAB : ra ≠ rb) (hAC : ra ≠ rc) (hBC : rb ≠ rc) :
    ∃ m1 s1 m2 s2 m3 s3 m4 s4,
      UnorderedMap.insert ck cv (UnorderedMap.new id) [] A va =
        some (none, m1, s1) ∧
      UnorderedMap.insert ck cv m1 s1 B vb = some (none, m2, s2) ∧
      UnorderedMap.insert ck cv m2 s2 C vc = some (none, m3, s3) ∧
      UnorderedMap.to_vec ck cv m3 s3 = some [(A, va), (B, vb), (C, vc)] ∧
      UnorderedMap.remove ck cv m3 s3 A = some (some va, m4, s4) ∧
      UnorderedMap.to_vec ck cv m4 s4 = some [(C, vc), (B, vb)] := by
  have hskA : UnorderedMap.serialize_key ck A = some ra := serialize_key_eq hA
  have hskB : UnorderedMap.serialize_key ck B = some rb := serialize_key_eq hB
  have hskC : UnorderedMap.serialize_key ck C = some rc := serialize_key_eq hC
  have hsva : UnorderedMap.serialize_value cv va = some ba := by
    simp [UnorderedMap.serialize_value, hva]
  have hsvb : UnorderedMap.serialize_value cv vb = some bb := by
    simp [UnorderedMap.serialize_value, hvb]
  have hsvc : UnorderedMap.serialize_value cv vc = some bc := by
    simp [UnorderedMap.serialize_value, hvc]
  have nLK : ∀ (x : Bytes) (j : Nat),
      (id ++ [105]) ++ x ≠ (id ++ [107]) ++ u64_to_le_bytes j :=
    fun x j => classKey_ne id _ _ (by decide)
  have nLV : ∀ (x : Bytes) (j : Nat),
      (id ++ [105]) ++ x ≠ (id ++ [118]) ++ u64_to_le_bytes j :=
    fun x j => classKey_ne id _ _ (by decide)
  have nKV : ∀ i j : Nat,
      (id ++ [107]) ++ u64_to_le_bytes i ≠
        (id ++ [118]) ++ u64_to_le_bytes j :=
    fun i j => classKey_ne id _ _ (by decide)
  have k01 : (id ++ [107]) ++ u64_to_le_bytes 0 ≠
      (id ++ [107]) ++ u64_to_le_bytes 1 := classKey_ne_same id (by decide)
  have k02 : (id ++ [107]) ++ u64_to_le_bytes 0 ≠
      (id ++ [107]) ++ u64_to_le_bytes 2 := classKey_ne_same id (by decide)
  have k12 : (id ++ [107]) ++ u64_to_le_bytes 1 ≠
      (id ++ [107]) ++ u64_to_le_bytes 2 := classKey_ne_same id (by decide)
  have v01 : (id ++ [118]) ++ u64_to_le_bytes 0 ≠
      (id ++ [118]) ++ u64_to_le_bytes 1 := classKey_ne_same id (by decide)
  have v02 : (id ++ [118]) ++ u64_to_le_bytes 0 ≠
      (id ++ [118]) ++ u64_to_le_bytes 2 := classKey_ne_same id (by decide)
  have v12 : (id ++ [118]) ++ u64_to_le_bytes 1 ≠
      (id ++ [118]) ++ u64_to_le_bytes 2 := classKey_ne_same id (by decide)
  -- step 1: insert A
  have hins1 : (UnorderedMap.new id).insert_raw [] ra ba =
      some (none, scenM1 id, scenS1 id ra ba) :=
    insert_raw_notfound_eq ba rfl rfl
  have ht1 : UnorderedMap.insert ck cv (UnorderedMap.new id) [] A va =
      some (none, scenM1 id, scenS1 id ra ba) := by
    simp only [UnorderedMap.insert, hskA, hsva, hins1]
  -- step 2: insert B
  have hS1Lb : storage_read (scenS1 id ra ba) ((id ++ [105]) ++ rb) =
      none := by
    simp only [scenS1, scenL, scenK, scenV]
    rw [storage_read_write_ne _ _ _ (nLV rb 0),
      storage_read_write_ne _ _ _ (nLK rb 0),
      storage_read_write_ne _ _ _ (classKey_ne_same id hAB.symm)]
    rfl
  have hins2 : (scenM1 id).insert_raw (scenS1 id ra ba) rb bb =
      some (none, scenM2 id, scenS2 id ra rb ba bb) :=
    insert_raw_notfound_eq bb hS1Lb rfl
  have ht2 : UnorderedMap.insert ck cv (scenM1 id) (scenS1 id ra ba) B vb =
      some (none, scenM2 id, scenS2 id ra rb ba bb) := by
    simp only [UnorderedMap.insert, hskB, hsvb, hins2]
  -- step 3: insert C
  have hS2Lc : storage_read (scenS2 id ra rb ba bb) ((id ++ [105]) ++ rc) =
      none := by
    simp only [scenS2, scenS1, scenL, scenK, scenV]
    rw [storage_read_write_ne _ _ _ (nLV rc 1),
      storage_read_write_ne _ _ _ (nLK rc 1),
      storage_read_write_ne _ _ _ (classKey_ne_same id hBC.symm),
      storage_read_write_ne _ _ _ (nLV rc 0),
      storage_read_write_ne _ _ _ (nLK rc 0),
      storage_read_write_ne _ _ _ (classKey_ne_same id hAC.symm)]
    rfl
  have hins3 : (scenM2 id).insert_raw (scenS2 id ra rb ba bb) rc bc =
      some (none, scenM3 id, scenS3 id ra rb rc ba bb bc) :=
    insert_raw_notfound_eq bc hS2Lc rfl
  have ht3 : UnorderedMap.insert ck cv (scenM2 id) (scenS2 id ra rb ba bb)
      C vc = some (none, scenM3 id, scenS3 id ra rb rc ba bb bc) := by
    simp only [UnorderedMap.insert, hskC, hsvc, hins3]
  -- slot contents of the three-entry state
  have hS3K0 : storage_read (scenS3 id ra rb rc ba bb bc)
      ((id ++ [107]) ++ u64_to_le_bytes 0) = some ra := by
    simp only [scenS3, scenS2, scenS1, scenL, scenK, scenV]
    rw [storage_read_write_ne _ _ _ (nKV 0 2).symm.symm,
      storage_read_write_ne _ _ _ k02,
      storage_read_write_ne _ _ _ (nLK rc 0).symm,
      storage_read_write_ne _ _ _ (nKV 0 1),
      storage_read_write_ne _ _ _ k01,
      storage_read_write_ne _ _ _ (nLK rb 0).symm,
      storage_read_write_ne _ _ _ (nKV 0 0),
      storage_read_write_self]
  have hS3K1 : storage_read (scenS3 id ra rb rc ba bb bc)
      ((id ++ [107]) ++ u64_to_le_bytes 1) = some rb := by
    simp only [scenS3, scenS2, scenS1, scenL, scenK, scenV]
    rw [storage_read_write_ne _ _ _ (nKV 1 2),
      storage_read_write_ne _ _ _ k12,
      storage_read_write_ne _ _ _ (nLK rc 1).symm,
      storage_read_write_ne _ _ _ (nKV 1 1),
      storage_read_write_self]
  have hS3K2 : storage_read (scenS3 id ra rb rc ba bb bc)
      ((id ++ [107]) ++ u64_to_le_bytes 2) = some rc := by
    simp only [scenS3, scenS2, scenS1, scenL, scenK, scenV]
    rw [storage_read_write_ne _ _ _ (nKV 2 2),
      storage_read_write_self]
  have hS3V0 : storage_read (scenS3 id ra rb rc ba bb bc)
      ((id ++ [118]) ++ u64_to_le_bytes 0) = some ba := by
    simp only [scenS3, scenS2, scenS1, scenL, scenK, scenV]
    rw [storage_read_write_ne _ _ _ v02,
      storage_read_write_ne _ _ _ (nKV 2 0).symm,
      storage_read_write_ne _ _ _ (nLV rc 0).symm,
      storage_read_write_ne _ _ _ v01,
      storage_read_write_ne _ _ _ (nKV 1 0).symm,
      storage_read_write_ne _ _ _ (nLV rb 0).symm,
      storage_read_write_self]
  have hS3V1 : storage_read (scenS3 id ra rb rc ba bb bc)
      ((id ++ [118]) ++ u64_to_le_bytes 1) = some bb := by
    simp only [scenS3, scenS2, scenS1, scenL, scenK, scenV]
    rw [storage_read_write_ne _ _ _ v12,
      storage_read_write_ne _ _ _ (nKV 2 1).symm,
      storage_read_write_ne _ _ _ (nLV rc 1).symm,
      storage_read_write_self]
  have hS3V2 : storage_read (scenS3 id ra rb rc ba bb bc)
      ((id ++ [118]) ++ u64_to_le_bytes 2) = some bc := by
    simp only [scenS3, scenS2, scenS1, scenL, scenK, scenV]
    rw [storage_read_write_self]
  have hS3La : storage_read (scenS3 id ra rb rc ba bb bc)
      ((id ++ [105]) ++ ra) = some (UnorderedMap.serialize_index 0) := by
    simp only [scenS3, scenS2, scenS1, scenL, scenK, scenV]
    rw [storage_read_write_ne _ _ _ (nLV ra 2),
      storage_read_write_ne _ _ _ (nLK ra 2),
      storage_read_write_ne _ _ _ (classKey_ne_same id hAC),
      storage_read_write_ne _ _ _ (nLV ra 1),
      storage_read_write_ne _ _ _ (nLK ra 1),
      storage_read_write_ne _ _ _ (classKey_ne_same id hAB),
      storage_read_write_ne _ _ _ (nLV ra 0),
      storage_read_write_ne _ _ _ (nLK ra 0),
      storage_read_write_self]
  -- to_vec of the three-entry state
  have hk3 : Vector.iter_raw ⟨id ++ [107], 3⟩ (scenS3 id ra rb rc ba bb bc) =
      some [ra, rb, rc] := by
    show Vector.collectSome
      [storage_read (scenS3 id ra rb rc ba bb bc)
        ((id ++ [107]) ++ u64_to_le_bytes 0),
       storage_read (scenS3 id ra rb rc ba bb bc)
        ((id ++ [107]) ++ u64_to_le_bytes 1),
       storage_read (scenS3 id ra rb rc ba bb bc)
        ((id ++ [107]) ++ u64_to_le_bytes 2)] = some [ra, rb, rc]
    rw [hS3K0, hS3K1, hS3K2]
    rfl
  have hv3 : Vector.iter_raw ⟨id ++ [118], 3⟩ (scenS3 id ra rb rc ba bb bc) =
      some [ba, bb, bc] := by
    show Vector.collectSome
      [storage_read (scenS3 id ra rb rc ba bb bc)
        ((id ++ [118]) ++ u64_to_le_bytes 0),
       storage_read (scenS3 id ra rb rc ba bb bc)
        ((id ++ [118]) ++ u64_to_le_bytes 1),
       storage_read (scenS3 id ra rb rc ba bb bc)
        ((id ++ [118]) ++ u64_to_le_bytes 2)] = some [ba, bb, bc]
    rw [hS3V0, hS3V1, hS3V2]
    rfl
  have hkt3 : UnorderedMap.iterTyped ck ⟨id ++ [107], 3⟩
      (scenS3 id ra rb rc ba bb bc) = some [A, B, C] := by
    simp only [UnorderedMap.iterTyped, hk3, List.map_cons, List.map_nil,
      hdA, hdB, hdC, Vector.collectSome, Option.map_some']
  have hvt3 : UnorderedMap.iterTyped cv ⟨id ++ [118], 3⟩
      (scenS3 id ra rb rc ba bb bc) = some [va, vb, vc] := by
    simp only [UnorderedMap.iterTyped, hv3, List.map_cons, List.map_nil,
      hdva, hdvb, hdvc, Vector.collectSome, Option.map_some']
  have hvec3 : UnorderedMap.to_vec ck cv (scenM3 id)
      (scenS3 id ra rb rc ba bb bc) =
      some [(A, va), (B, vb), (C, vc)] := by
    simp only [UnorderedMap.to_vec, scenM3]
    rw [hkt3, hvt3]
    rfl
  -- removal of A
  have hlast3 : (scenM3 id).keys.get_raw (scenS3 id ra rb rc ba bb bc) 2 =
      some rc := by
    rw [Vector.get_raw_eq
      (show (2 : Nat) < (scenM3 id).keys.len by norm_num [scenM3])]
    exact hS3K2
  have hS3bK2 : storage_read (scenS3b id ra rb rc ba bb bc)
      ((id ++ [107]) ++ u64_to_le_bytes 2) = some rc := by
    simp only [scenS3b, scenL]
    rw [storage_read_write_ne _ _ _ (nLK rc 2).symm,
      storage_read_remove_ne _ _ (nLK ra 2).symm]
    exact hS3K2
  have hS3bK0 : storage_read (scenS3b id ra rb rc ba bb bc)
      ((id ++ [107]) ++ u64_to_le_bytes 0) = some ra := by
    simp only [scenS3b, scenL]
    rw [storage_read_write_ne _ _ _ (nLK rc 0).symm,
      storage_read_remove_ne _ _ (nLK ra 0).symm]
    exact hS3K0
  have hswk : (scenM3 id).keys.swap_remove_raw
      (scenS3b id ra rb rc ba bb bc) 0 =
      some (ra, ⟨id ++ [107], 2⟩, scenS3c id ra rb rc ba bb bc) :=
    @Vector.swap_remove_mid_eq (scenM3 id).keys
      (scenS3b id ra rb rc ba bb bc) 0 rc ra (by norm_num [scenM3])
      (by norm_num [scenM3]) hS3bK2 hS3bK0
  have hS3cV2 : storage_read (scenS3c id ra rb rc ba bb bc)
      ((id ++ [118]) ++ u64_to_le_bytes 2) = some bc := by
    simp only [scenS3c, scenK]
    rw [storage_read_remove_ne _ _ (nKV 2 2).symm,
      storage_read_write_ne _ _ _ (nKV 0 2).symm]
    simp only [scenS3b, scenL]
    rw [storage_read_write_ne _ _ _ (nLV rc 2).symm,
      storage_read_remove_ne _ _ (nLV ra 2).symm]
    exact hS3V2
  have hS3cV0 : storage_read (scenS3c id ra rb rc ba bb bc)
      ((id ++ [118]) ++ u64_to_le_bytes 0) = some ba := by
    simp only [scenS3c, scenK]
    rw [storage_read_remove_ne _ _ (nKV 2 0).symm,
      storage_read_write_ne _ _ _ (nKV 0 0).symm]
    simp only [scenS3b, scenL]
    rw [storage_read_write_ne _ _ _ (nLV rc 0).symm,
      storage_read_remove_ne _ _ (nLV ra 0).symm]
    exact hS3V0
  have hswv : (scenM3 id).values.swap_remove_raw
      (scenS3c id ra rb rc ba bb bc) 0 =
      some (ba, ⟨id ++ [118], 2⟩, scenS4 id ra rb rc ba bb bc) :=
    @Vector.swap_remove_mid_eq (scenM3 id).values
      (scenS3c id ra rb rc ba bb bc) 0 bc ba (by norm_num [scenM3])
      (by norm_num [scenM3]) hS3cV2 hS3cV0
  have hrem : (scenM3 id).remove_raw (scenS3 id ra rb rc ba bb bc) ra =
      some (some ba, scenM4 id, scenS4 id ra rb rc ba bb bc) :=
    remove_raw_swap_eq hS3La rfl (by norm_num [scenM3]) hlast3 hAC.symm
      (deserialize_serialize_of_lt (by norm_num)) hswk hswv
  have ht4 : UnorderedMap.remove ck cv (scenM3 id)
      (scenS3 id ra rb rc ba bb bc) A =
      some (some va, scenM4 id, scenS4 id ra rb rc ba bb bc) := by
    simp only [UnorderedMap.remove, hskA, hrem,
      UnorderedMap.deserialize_value, hdva]
  -- slot contents after the removal
  have hS4K0 : storage_read (scenS4 id ra rb rc ba bb bc)
      ((id ++ [107]) ++ u64_to_le_bytes 0) = some rc := by
    simp only [scenS4, scenV]
    rw [storage_read_remove_ne _ _ (nKV 0 2),
      storage_read_write_ne _ _ _ (nKV 0 0)]
    simp only [scenS3c, scenK]
    rw [storage_read_remove_ne _ _ k02, storage_read_write_self]
  have hS4K1 : storage_read (scenS4 id ra rb rc ba bb bc)
      ((id ++ [107]) ++ u64_to_le_bytes 1) = some rb := by
    simp only [scenS4, scenV]
    rw [storage_read_remove_ne _ _ (nKV 1 2),
      storage_read_write_ne _ _ _ (nKV 1 0)]
    simp only [scenS3c, scenK]
    rw [storage_read_remove_ne _ _ k12,
      storage_read_write_ne _ _ _ k01.symm]
    simp only [scenS3b, scenL]
    rw [storage_read_write_ne _ _ _ (nLK rc 1).symm,
      storage_read_remove_ne _ _ (nLK ra 1).symm]
    exact hS3K1
  have hS4V0 : storage_read (scenS4 id ra rb rc ba bb bc)
      ((id ++ [118]) ++ u64_to_le_bytes 0) = some bc := by
    simp only [scenS4, scenV]
    rw [storage_read_remove_ne _ _ v02, storage_read_write_self]
  have hS4V1 : storage_read (scenS4 id ra rb rc ba bb bc)
      ((id ++ [118]) ++ u64_to_le_bytes 1) = some bb := by
    simp only [scenS4, scenV]
    rw [storage_read_remove_ne _ _ v12,
      storage_read_write_ne _ _ _ v01.symm]
    simp only [scenS3c, scenK]
    rw [storage_read_remove_ne _ _ (nKV 2 1).symm,
      storage_read_write_ne _ _ _ (nKV 0 1).symm]
    simp only [scenS3b, scenL]
    rw [storage_read_write_ne _ _ _ (nLV rc 1).symm,
      storage_read_remove_ne _ _ (nLV ra 1).symm]
    exact hS3V1
  -- to_vec after the removal
  have hk4 : Vector.iter_raw ⟨id ++ [107], 2⟩ (scenS4 id ra rb rc ba bb bc) =
      some [rc, rb] := by
    show Vector.collectSome
      [storage_read (scenS4 id ra rb rc ba bb bc)
        ((id ++ [107]) ++ u64_to_le_bytes 0),
       storage_read (scenS4 id ra rb rc ba bb bc)
        ((id ++ [107]) ++ u64_to_le_bytes 1)] = some [rc, rb]
    rw [hS4K0, hS4K1]
    rfl
  have hv4 : Vector.iter_raw ⟨id ++ [118], 2⟩ (scenS4 id ra rb rc ba bb bc) =
      some [bc, bb] := by
    show Vector.collectSome
      [storage_read (scenS4 id ra rb rc ba bb bc)
        ((id ++ [118]) ++ u64_to_le_bytes 0),
       storage_read (scenS4 id ra rb rc ba bb bc)
        ((id ++ [118]) ++ u64_to_le_bytes 1)] = some [bc, bb]
    rw [hS4V0, hS4V1]
    rfl
  have hkt4 : UnorderedMap.iterTyped ck ⟨id ++ [107], 2⟩
      (scenS4 id ra rb rc ba bb bc) = some [C, B] := by
    simp only [UnorderedMap.iterTyped, hk4, List.map_cons, List.map_nil,
      hdC, hdB, Vector.collectSome, Option.map_some']
  have hvt4 : UnorderedMap.iterTyped cv ⟨id ++ [118], 2⟩
      (scenS4 id ra rb rc ba bb bc) = some [vc, vb] := by
    simp only [UnorderedMap.iterTyped, hv4, List.map_cons, List.map_nil,
      hdvc, hdvb, Vector.collectSome, Option.map_some']
  have hvec4 : UnorderedMap.to_vec ck cv (scenM4 id)
      (scenS4 id ra rb rc ba bb bc) = some [(C, vc), (B, vb)] := by
    simp only [UnorderedMap.to_vec, scenM4]
    rw [hkt4, hvt4]
    rfl
  exact ⟨scenM1 id, scenS1 id ra ba, scenM2 id, scenS2 id ra rb ba bb,
    scenM3 id, scenS3 id ra rb rc ba bb bc, scenM4 id,
    scenS4 id ra rb rc ba bb bc, ht1, ht2, ht3, hvec3, ht4, hvec4⟩

theorem claim_C2_witness :
    ∃ m1 s1 m2 s2 m3 s3 m4 s4,
      UnorderedMap.insert borshBytes borshU64 (UnorderedMap.new []) []
        [97] 1 = some (none, m1, s1) ∧
      UnorderedMap.insert borshBytes borshU64 m1 s1 [98] 2 =
        some (none, m2, s2) ∧
      UnorderedMap.insert borshBytes borshU64 m2 s2 [99] 3 =
        some (none, m3, s3) ∧
      UnorderedMap.to_vec borshBytes borshU64 m3 s3 =
        some [([97], 1), ([98], 2), ([99], 3)] ∧
      UnorderedMap.remove borshBytes borshU64 m3 s3 [97] =
        some (some 1, m4, s4) ∧
      UnorderedMap.to_vec borshBytes borshU64 m4 s4 =
        some [([99], 3), ([98], 2)] :=
  claim_C2 borshBytes borshU64 [] [97] [98] [99] 1 2 3
    [1, 0, 0, 0, 97] [1, 0, 0, 0, 98] [1, 0, 0, 0, 99]
    [1, 0, 0, 0, 0, 0, 0, 0] [2, 0, 0, 0, 0, 0, 0, 0]
    [3, 0, 0, 0, 0, 0, 0, 0]
    (by decide) (by decide) (by decide) (by decide) (by decide) (by decide)
    (by decide) (by decide) (by decide) (by decide) (by decide) (by decide)
    (by decide) (by decide) (by decide)

/-! ### Error handling of the typed layer (claim C7) -/

/-- Counterexample to C7 as stated: for the concrete codec `failCodec`,
whose encoder rejects the key `0` (and, value-side, the value `0`), the
typed operations do NOT return a decode/encode error to the caller — they
abort the invocation (`env::panic`, modelled by the result `none`). -/
theorem claim_C7_counterexample :
    UnorderedMap.insert failCodec borshU64 (UnorderedMap.new []) [] 0 5 =
      none ∧
    UnorderedMap.get failCodec borshU64 (UnorderedMap.new []) [] 0 = none ∧
    UnorderedMap.remove failCodec borshU64 (UnorderedMap.new []) [] 0 =
      none ∧
    UnorderedMap.insert borshU64 failCodec (UnorderedMap.new []) [] 1 0 =
      none := by
  refine ⟨?_, ?_, ?_, ?_⟩ <;> decide

/-- C7 (amended): for every caller-supplied key or value whose encoding
under the codec fails, the typed operations (`insert`, `get`, `remove`)
abort the invocation — `env::panic(ERR_KEY_SERIALIZATION)` /
`ERR_VALUE_SERIALIZATION`, modelled by the result `none` — rather than
returning a typed error value to the caller. -/
theorem claim_C7 {K V : Type} (ck : Codec K) (cv : Codec V)
    (m : UnorderedMap) (s : Store) :
    (∀ (key : K) (value : V), ck.enc key = none →
      UnorderedMap.insert ck cv m s key value = none ∧
      UnorderedMap.get ck cv m s key = none ∧
      UnorderedMap.remove ck cv m s key = none) ∧
    (∀ (key : K) (value : V), cv.enc value = none →
      UnorderedMap.insert ck cv m s key value = none) := by
  constructor
  · intro key value hk
    refine ⟨?_, ?_, ?_⟩ <;>
      simp [UnorderedMap.insert, UnorderedMap.get, UnorderedMap.remove,
        UnorderedMap.serialize_key, hk]
  · intro key value hv
    cases hck : ck.enc key with
    | none =>
      simp [UnorderedMap.insert, UnorderedMap.serialize_key, hck]
    | some kraw =>
      simp [UnorderedMap.insert, UnorderedMap.serialize_key,
        UnorderedMap.serialize_value, hck, hv]

theorem claim_C7_witness :
    UnorderedMap.insert failCodec borshU64 (UnorderedMap.new []) [] 0 5 =
      none ∧
    UnorderedMap.get failCodec borshU64 (UnorderedMap.new []) [] 0 = none ∧
    UnorderedMap.remove failCodec borshU64 (UnorderedMap.new []) [] 0 =
      none :=
  (claim_C7 failCodec borshU64 (UnorderedMap.new []) []).1 0 5 (by decide)

end NearSdk
